import Mathlib

/-!
Verification of the package-backend repository against its specification.

Part 1 below embeds the query-parameter parsers of `src/query.js` and
`src/query_parameters/direction.js` (both present in the repository).
Part 2 embeds the database consistency engine.  The file `database.js`
itself is absent from the repository snapshot (only its integration test
is present), so the engine is modelled from the specification, with the
concrete result shapes and messages that the integration test pins down.
-/

/-! ## JavaScript string primitives

JS strings are modelled as Lean `String` (a structure over `List Char`);
the JS operations used by the sources are defined on the character list.
-/

/-- ASCII lower-casing of one character, as JS `toLowerCase` acts on the
ASCII range (the package names handled by the backend are ASCII). -/
def asciiLower (c : Char) : Char :=
  if 'A' ≤ c ∧ c ≤ 'Z' then Char.ofNat (c.toNat + 32) else c

/-- JS `String.prototype.toLowerCase`, restricted to the ASCII range. -/
def jsToLowerCase (s : String) : String :=
  ⟨s.data.map asciiLower⟩

/-- The WhiteSpace and LineTerminator characters of ECMAScript, used both by
`String.prototype.trim` and by string-to-number coercion. -/
def jsWhitespace (c : Char) : Bool :=
  decide (c = ' ' ∨ c = '\t' ∨ c = '\n' ∨ c = '\r' ∨
    c.toNat = 11 ∨ c.toNat = 12 ∨ c.toNat = 160 ∨ c.toNat = 65279 ∨
    c.toNat = 8232 ∨ c.toNat = 8233 ∨ (8192 ≤ c.toNat ∧ c.toNat ≤ 8202) ∨
    c.toNat = 5760 ∨ c.toNat = 8239 ∨ c.toNat = 8287 ∨ c.toNat = 12288)

/-- Strip leading and trailing JS whitespace from a character list. -/
def trimChars (l : List Char) : List Char :=
  ((l.dropWhile jsWhitespace).reverse.dropWhile jsWhitespace).reverse

/-- JS `String.prototype.trim`. -/
def jsTrim (s : String) : String :=
  ⟨trimChars s.data⟩

/-- JS `String.prototype.slice(0, n)`. -/
def jsSlice (s : String) (n : Nat) : String :=
  ⟨s.data.take n⟩

/-- Numeric value of a list of decimal digits. -/
def digitsToNat (l : List Char) : Nat :=
  l.foldl (fun a c => a * 10 + (c.toNat - 48)) 0

/-- JS `parseInt(s, 10)`: skip leading whitespace, read an optional sign and
then the longest prefix of decimal digits; `none` models the NaN result
produced when no digit is found.  Trailing garbage is ignored. -/
def jsParseInt (s : String) : Option Int :=
  let t := s.data.dropWhile jsWhitespace
  let su : Bool × List Char :=
    match t with
    | '+' :: r => (false, r)
    | '-' :: r => (true, r)
    | _ => (false, t)
  let ds := su.2.takeWhile Char.isDigit
  if ds.isEmpty then none
  else some (if su.1 then -(Int.ofNat (digitsToNat ds)) else Int.ofNat (digitsToNat ds))

/-- Hexadecimal digit recogniser. -/
def isHexDigitChar (c : Char) : Bool :=
  c.isDigit || decide ('a' ≤ c ∧ c ≤ 'f') || decide ('A' ≤ c ∧ c ≤ 'F')

/-- Octal digit recogniser. -/
def isOctalDigit (c : Char) : Bool :=
  decide ('0' ≤ c ∧ c ≤ '7')

/-- Binary digit recogniser. -/
def isBinaryDigit (c : Char) : Bool :=
  decide (c = '0' ∨ c = '1')

/-- Strip one leading sign character. -/
def stripSign : List Char → List Char
  | '+' :: r => r
  | '-' :: r => r
  | l => l

/-- Exponent part of a JS decimal literal: empty, or `e`/`E` followed by an
optionally signed nonempty digit run. -/
def expPart : List Char → Bool
  | [] => true
  | c :: rest =>
    (c == 'e' || c == 'E') &&
      (let r := stripSign rest
       !r.isEmpty && r.all Char.isDigit)

/-- Unsigned decimal mantissa with optional exponent:
`digits`, `digits.digits?`, or `.digits`, each followed by `expPart`. -/
def jsMantissa (l : List Char) : Bool :=
  let ds := l.takeWhile Char.isDigit
  let rest := l.dropWhile Char.isDigit
  if ds.isEmpty then
    match rest with
    | '.' :: r2 =>
      let ds2 := r2.takeWhile Char.isDigit
      !ds2.isEmpty && expPart (r2.dropWhile Char.isDigit)
    | _ => false
  else
    match rest with
    | '.' :: r2 => expPart (r2.dropWhile Char.isDigit)
    | _ => expPart rest

/-- The characters of the literal `Infinity`. -/
def infinityChars : List Char :=
  ['I', 'n', 'f', 'i', 'n', 'i', 't', 'y']

/-- Signed decimal literal or signed `Infinity`. -/
def decSigned (l : List Char) : Bool :=
  let m := stripSign l
  decide (m = infinityChars) || jsMantissa m

/-- The ECMAScript StrNumericLiteral grammar on a whitespace-trimmed,
nonempty character list: a signed decimal literal or `Infinity`, or an
unsigned `0x`/`0o`/`0b` integer literal. -/
def validJsNumber : List Char → Bool
  | '0' :: c :: rest =>
    if c == 'x' || c == 'X' then !rest.isEmpty && rest.all isHexDigitChar
    else if c == 'o' || c == 'O' then !rest.isEmpty && rest.all isOctalDigit
    else if c == 'b' || c == 'B' then !rest.isEmpty && rest.all isBinaryDigit
    else decSigned ('0' :: c :: rest)
  | l => decSigned l

/-- JS `isNaN(s)` for a string argument: the string is coerced with
`Number(...)` (whitespace-trimmed; the empty string coerces to `0`) and the
result is compared with NaN. -/
def jsIsNaN (s : String) : Bool :=
  let t := trimChars s.data
  if t.isEmpty then false else !(validJsNumber t)

/-! ## The request model for `src/query.js`

Express query-string values are strings, or arrays/objects produced by
bracketed parameters (JS `typeof` "object"), or absent; the `num`
constructor additionally covers JS number inputs handled by `page`
(an integral value or NaN; fractional numbers cannot arise from a parsed
query string). -/

/-- A value found in `req.query`. -/
inductive QVal where
  | str (s : String)
  | num (n : Option Int)
  | other
deriving DecidableEq

/-- The query-string fields of a request that `query.js` reads. -/
structure QueryParams where
  page : Option QVal
  q : Option QVal
  direction : Option QVal
  order : Option QVal
deriving DecidableEq

/-- The route parameters of a request. -/
structure PathParams where
  packageName : String
deriving DecidableEq

/-- The part of an Express `Request` consumed by `query.js`. -/
structure Request where
  query : QueryParams
  params : PathParams
deriving DecidableEq

namespace Query

/-- `query.js` `pathTraversalAttempt`: the combined regex
`\.{2}(?:[/\\])?` matches exactly when two consecutive dots occur. -/
def hasDoubleDot : List Char → Bool
  | '.' :: '.' :: _ => true
  | _ :: rest => hasDoubleDot rest
  | [] => false

/-- `query.js` `pathTraversalAttempt(data)`. -/
def pathTraversalAttempt (data : String) : Bool :=
  hasDoubleDot data.data

/-- `query.js` `page(req)`: on a string, the `isNaN` coercion check gates a
`parseInt`; on a number, NaN falls back to the default; otherwise 1.
`none` models a NaN return value. -/
def page (req : Request) : Option Int :=
  match req.query.page with
  | some (QVal.str prov) => if jsIsNaN prov then some 1 else jsParseInt prov
  | some (QVal.num n) =>
    match n with
    | none => some 1
    | some v => some v
  | _ => some 1

/-- `query.js` `query(req)`: empty string unless `q` is a string free of
path-traversal sequences; then the first 50 characters, trimmed. -/
def query (req : Request) : String :=
  match req.query.q with
  | some (QVal.str prov) =>
    if pathTraversalAttempt prov then "" else jsTrim (jsSlice prov 50)
  | _ => ""

/-- `query.js` `packageName(req)`: the lower-cased route parameter. -/
def packageName (req : Request) : String :=
  jsToLowerCase req.params.packageName

/-- `query.js` `dir(req)`: `direction ?? order ?? "desc"`, kept only when it
is a member of `["asc", "desc"]`. -/
def dir (req : Request) : String :=
  let prov : QVal :=
    match req.query.direction with
    | some v => v
    | none =>
      match req.query.order with
      | some v => v
      | none => QVal.str "desc"
  match prov with
  | QVal.str s => if s = "asc" ∨ s = "desc" then s else "desc"
  | _ => "desc"

end Query

namespace Direction

/-- `src/query_parameters/direction.js` `logic(req)`. -/
def logic (req : Request) : String :=
  let prov : QVal :=
    match req.query.direction with
    | some v => v
    | none =>
      match req.query.order with
      | some v => v
      | none => QVal.str "desc"
  match prov with
  | QVal.str s => if s = "asc" ∨ s = "desc" then s else "desc"
  | _ => "desc"

end Direction

/-! ### Facts about the trimming helpers -/

theorem dropWhile_head?_false {p : Char → Bool} {l : List Char} {a : Char}
    (h : (l.dropWhile p).head? = some a) : p a = false := by
  induction l with
  | nil => simp [List.dropWhile] at h
  | cons b bs ih =>
    by_cases hb : p b
    · rw [List.dropWhile_cons_of_pos hb] at h
      exact ih h
    · rw [List.dropWhile_cons_of_neg hb] at h
      simp at h
      subst h
      exact Bool.not_eq_true _ ▸ (by simpa using hb)

theorem trimChars_length_le (l : List Char) :
    (trimChars l).length ≤ l.length := by
  unfold trimChars
  calc ((l.dropWhile jsWhitespace).reverse.dropWhile jsWhitespace).reverse.length
      = ((l.dropWhile jsWhitespace).reverse.dropWhile jsWhitespace).length := by
        rw [List.length_reverse]
    _ ≤ (l.dropWhile jsWhitespace).reverse.length :=
        (List.dropWhile_sublist _).length_le
    _ = (l.dropWhile jsWhitespace).length := by rw [List.length_reverse]
    _ ≤ l.length := (List.dropWhile_sublist _).length_le

theorem trimChars_head?_not_ws {l : List Char} {a : Char}
    (h : (trimChars l).head? = some a) : jsWhitespace a = false := by
  unfold trimChars at h
  rw [List.head?_reverse] at h
  -- the last element of a `dropWhile` is the last element of its input
  have hsuf : ((l.dropWhile jsWhitespace).reverse.dropWhile jsWhitespace)
      <:+ (l.dropWhile jsWhitespace).reverse := List.dropWhile_suffix _
  obtain ⟨t, ht⟩ := hsuf
  have hne : ((l.dropWhile jsWhitespace).reverse.dropWhile jsWhitespace) ≠ [] := by
    intro hnil
    rw [hnil] at h
    simp at h
  have hy : (l.dropWhile jsWhitespace).reverse.getLast? = some a := by
    rw [← ht, List.getLast?_append_of_ne_nil _ hne]
    exact h
  rw [List.getLast?_reverse] at hy
  exact dropWhile_head?_false hy

theorem trimChars_getLast?_not_ws {l : List Char} {a : Char}
    (h : (trimChars l).getLast? = some a) : jsWhitespace a = false := by
  unfold trimChars at h
  rw [List.getLast?_reverse] at h
  exact dropWhile_head?_false h

/-! ## Claims C9 and C10: the query-parameter parsers -/

/-- A request carrying `?page=` (the page parameter present as the empty
string), reachable by the URL suffix `?page=`. -/
def pageEmptyReq : Request :=
  { query := { page := some (QVal.str ""), q := none, direction := none, order := none },
    params := { packageName := "x" } }

/-- Claim C9, counterexample: the claim states that `page` always returns a
number, with 1 for an absent or non-numeric parameter.  On the reachable
request `?page=` the parameter is the empty string, which is not a numeral,
yet `page` returns NaN (modelled `none`): the string passes the `isNaN`
coercion check (`Number("")` is `0`) and then `parseInt("", 10)` yields NaN,
which the function returns unchanged.  So the result is neither a number
nor the default 1. -/
theorem C9_page_empty_string_is_nan :
    Query.page pageEmptyReq = none ∧ jsIsNaN "" = false ∧ jsParseInt "" = none := by
  refine ⟨by decide, by decide, by decide⟩

/-- Claim C9 (amended): `packageName` returns the lower-cased route
parameter; `query` returns a string of at most 50 characters with no
leading or trailing whitespace, and returns the empty string when the
input is not a string or contains a path-traversal sequence; `page`
returns 1 when the parameter is absent or fails the JS numeric-coercion
check, and otherwise returns the `parseInt` value — which is NaN
(modelled `none`), not a number, for strings such as the empty string
that pass the coercion check but have no leading integer digits. -/
theorem C9_query_parsers_amended (req : Request) :
    Query.packageName req = jsToLowerCase req.params.packageName ∧
    (Query.query req).data.length ≤ 50 ∧
    (∀ c, (Query.query req).data.head? = some c → jsWhitespace c = false) ∧
    (∀ c, (Query.query req).data.getLast? = some c → jsWhitespace c = false) ∧
    (∀ s, req.query.q = some (QVal.str s) → Query.pathTraversalAttempt s = true →
      Query.query req = "") ∧
    ((∀ s, req.query.q ≠ some (QVal.str s)) → Query.query req = "") ∧
    (req.query.page = none → Query.page req = some 1) ∧
    (∀ s, req.query.page = some (QVal.str s) → jsIsNaN s = true →
      Query.page req = some 1) ∧
    (∀ s, req.query.page = some (QVal.str s) → jsIsNaN s = false →
      Query.page req = jsParseInt s) := by
  have hq : ∀ s, req.query.q = some (QVal.str s) →
      Query.query req =
        if Query.pathTraversalAttempt s then "" else jsTrim (jsSlice s 50) := by
    intro s hs
    unfold Query.query
    rw [hs]
  have hqn : (∀ s, req.query.q ≠ some (QVal.str s)) → Query.query req = "" := by
    intro hns
    unfold Query.query
    rcases hv : req.query.q with _ | v
    · rfl
    · rcases v with s | n | _
      · exact absurd hv (hns s)
      · rfl
      · rfl
  have hqcases : Query.query req = "" ∨
      ∃ s, Query.query req = jsTrim (jsSlice s 50) := by
    rcases hv : req.query.q with _ | v
    · left; exact hqn (by intro s h; rw [hv] at h; exact Option.noConfusion h)
    · rcases v with s | n | _
      · by_cases h : Query.pathTraversalAttempt s
        · left; rw [hq s hv, if_pos h]
        · right; exact ⟨s, by rw [hq s hv, if_neg h]⟩
      · left
        refine hqn ?_
        intro s h; rw [hv] at h; exact QVal.noConfusion (Option.some.inj h)
      · left
        refine hqn ?_
        intro s h; rw [hv] at h; exact QVal.noConfusion (Option.some.inj h)
  refine ⟨rfl, ?_, ?_, ?_, ?_, hqn, ?_, ?_, ?_⟩
  · -- length bound
    rcases hqcases with h | ⟨s, h⟩
    · rw [h]; simp
    · rw [h]
      calc (jsTrim (jsSlice s 50)).data.length
          ≤ (jsSlice s 50).data.length := trimChars_length_le _
        _ ≤ 50 := by
            show (s.data.take 50).length ≤ 50
            rw [List.length_take]
            exact min_le_left _ _
  · -- no leading whitespace
    intro c hc
    rcases hqcases with h | ⟨s, h⟩
    · rw [h] at hc; simp at hc
    · rw [h] at hc
      exact trimChars_head?_not_ws hc
  · -- no trailing whitespace
    intro c hc
    rcases hqcases with h | ⟨s, h⟩
    · rw [h] at hc; simp at hc
    · rw [h] at hc
      exact trimChars_getLast?_not_ws hc
  · -- traversal gives ""
    intro s hs htrav
    rw [hq s hs, if_pos htrav]
  · -- absent page gives 1
    intro hp
    unfold Query.page
    rw [hp]
  · -- NaN-coercion gives 1
    intro s hs hnan
    unfold Query.page
    rw [hs]
    show (if jsIsNaN s = true then (some 1 : Option Int) else jsParseInt s) = some 1
    rw [if_pos hnan]
  · -- numeric-coercion gives parseInt
    intro s hs hnum
    unfold Query.page
    rw [hs]
    show (if jsIsNaN s = true then (some 1 : Option Int) else jsParseInt s) = jsParseInt s
    rw [if_neg (by rw [hnum]; exact Bool.false_ne_true)]

/-- Claim C9, witness of the amended theorem at concrete inputs. -/
theorem C9_query_parsers_amended_witness :
    Query.page { query := { page := some (QVal.str "abc"), q := none,
                            direction := none, order := none },
                 params := { packageName := "x" } } = some 1 :=
  (C9_query_parsers_amended _).2.2.2.2.2.2.2.1 "abc" rfl (by decide)

/-- Claim C10: the `dir` parser of `src/query.js` and the `logic` function of
`src/query_parameters/direction.js` agree on every request, and both return
the `direction` parameter when it is the string asc or desc, else the
`order` parameter when `direction` is absent and `order` is asc or desc,
and desc in every other case. -/
theorem C10_dir_equals_direction_logic (req : Request) :
    Query.dir req = Direction.logic req ∧
    Query.dir req =
      (match req.query.direction, req.query.order with
       | some (QVal.str s), _ => if s = "asc" ∨ s = "desc" then s else "desc"
       | some _, _ => "desc"
       | none, some (QVal.str s) => if s = "asc" ∨ s = "desc" then s else "desc"
       | none, _ => "desc") := by
  obtain ⟨⟨pg, q, dct, ord⟩, prm⟩ := req
  refine ⟨rfl, ?_⟩
  rcases dct with _ | v
  · rcases ord with _ | w
    · rfl
    · rcases w with s | n | _ <;> rfl
  · rcases v with s | n | _ <;> rfl

/-! ## Part 2: the database consistency engine

`database.js` is not in the repository snapshot; only its integration test
is.  The data model and operations below are therefore modelled from the
specification (sections 3 and 4), using the relational layout of
`scripts/database/create_packages_table.sql` and the result shapes,
messages and behaviours that the integration test pins down.  Mutations
are atomic: every operation returns the unchanged database on failure.
-/

/-- Semantic-version parsing.  Modelled from the spec: versions follow
standard `major.minor.patch` precedence; other shapes (pre-release or
build suffixes, non-numeric parts) do not participate in the ordering. -/
def splitDot : List Char → List (List Char)
  | [] => [[]]
  | c :: rest =>
    if c = '.' then [] :: splitDot rest
    else
      match splitDot rest with
      | h :: t => (c :: h) :: t
      | [] => [[c]]

/-- Parse a nonempty all-digit component. -/
def parseNatStrict (l : List Char) : Option Nat :=
  if l ≠ [] ∧ l.all Char.isDigit then some (digitsToNat l) else none

/-- Parse `major.minor.patch` into a triple of naturals. -/
def parseSemver (s : String) : Option (Nat × Nat × Nat) :=
  match splitDot s.data with
  | [a, b, c] =>
    match parseNatStrict a, parseNatStrict b, parseNatStrict c with
    | some x, some y, some z => some (x, y, z)
    | _, _, _ => none
  | _ => none

/-- Strict lexicographic order on version triples. -/
def triLt (a b : Nat × Nat × Nat) : Prop :=
  a.1 < b.1 ∨ (a.1 = b.1 ∧ (a.2.1 < b.2.1 ∨ (a.2.1 = b.2.1 ∧ a.2.2 < b.2.2)))

instance (a b : Nat × Nat × Nat) : Decidable (triLt a b) := by
  unfold triLt
  infer_instance

/-- `semverGtB a b` holds when both strings parse as `major.minor.patch`
triples and `a` is strictly above `b` in the standard precedence. -/
def semverGtB (a b : String) : Bool :=
  match parseSemver a, parseSemver b with
  | some x, some y => decide (triLt y x)
  | _, _ => false

/-- Version status: for a given pointer exactly one row is `latest`, every
other row is `published`. -/
inductive Status where
  | latest
  | published
deriving DecidableEq

/-- Boolean test for the `latest` status. -/
def Status.isLatest : Status → Bool
  | .latest => true
  | .published => false

/-- A row of the `versions` table: surrogate key, pointer foreign key,
status enum, semver text, license text, metadata blob. -/
structure VersionRow where
  id : Nat
  package : Nat
  status : Status
  semver : String
  license : String
  meta : String
deriving DecidableEq

/-- A row of the `packages` table. -/
structure PackageRow where
  pointer : Nat
  name : String
  created : Nat
  updated : Nat
  creation_method : String
  downloads : Int
  stargazers_count : Int
  original_stargazers : Int
  package_type : String
  data : String
deriving DecidableEq

/-- A row of the `names` table: display name (current or historical) to
pointer. -/
structure NameRow where
  name : String
  pointer : Nat
deriving DecidableEq

/-- A row of the `stars` table: one edge per (package pointer, user id). -/
structure StarRow where
  package : Nat
  userId : Nat
deriving DecidableEq

/-- A row of the `users` table (the fields the star operations read). -/
structure UserRow where
  id : Nat
  username : String
  node_id : String
  avatar : String
deriving DecidableEq

/-- The relational store, together with the surrogate-key and pointer
generators and a logical clock for timestamps. -/
structure Db where
  packages : List PackageRow
  names : List NameRow
  versions : List VersionRow
  stars : List StarRow
  nextPointer : Nat
  nextVersionId : Nat
  time : Nat
deriving DecidableEq

/-- The empty store. -/
def emptyDb : Db :=
  { packages := [], names := [], versions := [], stars := [],
    nextPointer := 0, nextVersionId := 0, time := 0 }

/-- Server status object: a success payload, or a short machine-readable
category with a human-readable detail message. -/
inductive DbResult (α : Type) where
  | ok (content : α)
  | err (short : String) (message : String)
deriving DecidableEq

/-- Whether a result is a NotFound failure. -/
def DbResult.isNotFound {α : Type} : DbResult α → Bool
  | .err s _ => s == "Not Found"
  | _ => false

namespace Database

/-- Modelled from the spec: the Identity Resolver maps any name a package
has ever had, case-normalized, to its pointer. -/
def findPointerByName (db : Db) (name : String) : Option Nat :=
  match db.names.find? (fun r => r.name == jsToLowerCase name) with
  | some r => some r.pointer
  | none => none

/-- Look up the package row of a pointer. -/
def findPackageByPointer (db : Db) (p : Nat) : Option PackageRow :=
  db.packages.find? (fun r => r.pointer == p)

/-- All version rows of a pointer, oldest first. -/
def versionsFor (db : Db) (p : Nat) : List VersionRow :=
  db.versions.filter (fun v => v.package == p)

/-- The package row joined with its ordered version list, as returned by
`getPackageByName`. -/
structure PackView where
  pack : PackageRow
  versions : List VersionRow
deriving DecidableEq

/-- Modelled from the spec: `getPackageByName` resolves the pointer through
the Identity Resolver and returns the package row joined with its ordered
version list, or NotFound. -/
def getPackageByName (db : Db) (name : String) : DbResult PackView :=
  match findPointerByName db name with
  | none => .err "Not Found" ("Unable to find the package " ++ name)
  | some p =>
    match findPackageByPointer db p with
    | none => .err "Not Found" ("Unable to find the package " ++ name)
    | some row => .ok { pack := row, versions := versionsFor db p }

/-- The input of `insertNewPackage`: display name, repository reference,
readme, creation method, package type, metadata document, and the initial
version descriptor. -/
structure NewPack where
  name : String
  repository : String
  readme : String
  creation_method : String
  packageType : String
  metadata : String
  version : String
  license : String
deriving DecidableEq

/-- Modelled from the spec: `insertNewPackage` atomically inserts one
package row, one name row, and one version row with status `latest`, and
returns the new pointer; Conflict when the name is taken (as a current or
historical name). -/
def insertNewPackage (db : Db) (pack : NewPack) : DbResult Nat × Db :=
  match findPointerByName db pack.name with
  | some _ => (.err "Conflict" ("The package " ++ pack.name ++ " already exists."), db)
  | none =>
    let p := db.nextPointer
    let row : PackageRow :=
      { pointer := p, name := jsToLowerCase pack.name, created := db.time,
        updated := db.time, creation_method := pack.creation_method,
        downloads := 0, stargazers_count := 0, original_stargazers := 0,
        package_type := pack.packageType, data := pack.metadata }
    let ver : VersionRow :=
      { id := db.nextVersionId, package := p, status := .latest,
        semver := pack.version, license := pack.license, meta := pack.metadata }
    (.ok p,
     { db with
        packages := db.packages ++ [row],
        names := db.names ++ [{ name := jsToLowerCase pack.name, pointer := p }],
        versions := db.versions ++ [ver],
        nextPointer := p + 1,
        nextVersionId := db.nextVersionId + 1,
        time := db.time + 1 })

/-- The input of `insertNewPackageVersion`, as in the test fixtures: the
package name plus the new version descriptor. -/
structure VerDesc where
  name : String
  version : String
  license : String
  meta : String
deriving DecidableEq

/-- The unique `latest` row of a pointer. -/
def findLatestRow (db : Db) (p : Nat) : Option VersionRow :=
  db.versions.find? (fun v => v.package == p && v.status.isLatest)

/-- Demote every `latest` row of a pointer to `published` (the SQL
`UPDATE versions SET status = published WHERE package = p AND
status = latest`). -/
def demoteLatestFor (p : Nat) (l : List VersionRow) : List VersionRow :=
  l.map (fun v =>
    if v.package == p && v.status.isLatest then { v with status := .published } else v)

/-- Modelled from the spec: `insertNewPackageVersion` resolves the name,
compares the new version with the current `latest` row by semantic-version
ordering, and atomically either demotes the old `latest` and inserts the
new row as `latest` (when the new version is strictly higher), or inserts
the new row as `published`.  The success message is the one the
integration test expects.  A duplicate version string is not rejected
(explicitly inherited open issue). -/
def insertNewPackageVersion (db : Db) (desc : VerDesc) : DbResult String × Db :=
  match findPointerByName db desc.name with
  | none => (.err "Not Found" ("Unable to find the package " ++ desc.name), db)
  | some p =>
    match findLatestRow db p with
    | none => (.err "Server Error" "Unable to locate the latest version.", db)
    | some lat =>
      let gt := semverGtB desc.version lat.semver
      let newRow : VersionRow :=
        { id := db.nextVersionId, package := p,
          status := if gt then .latest else .published,
          semver := desc.version, license := desc.license, meta := desc.meta }
      let vers :=
        if gt then demoteLatestFor p db.versions ++ [newRow]
        else db.versions ++ [newRow]
      (.ok ("Successfully added new version: " ++ desc.name ++ "@" ++ desc.version),
       { db with versions := vers,
                 nextVersionId := db.nextVersionId + 1,
                 time := db.time + 1 })

/-- The remaining version with the highest semantic ordering: a left fold
keeping the first maximal row. -/
def maxBySemver (v : VersionRow) (rest : List VersionRow) : VersionRow :=
  rest.foldl (fun acc w => if semverGtB w.semver acc.semver then w else acc) v

/-- Modelled from the spec: `removePackageVersion` resolves the name,
locates the targeted version row (NotFound if absent), rejects with a
Conflict when it is the only remaining version for the pointer — uses the
exact message the integration test expects — and otherwise deletes the
row; when the deleted row was `latest`, the remaining row with the highest
semantic ordering is promoted to `latest` and the message names the new
latest version. -/
def removePackageVersion (db : Db) (name semver : String) : DbResult String × Db :=
  match findPointerByName db name with
  | none => (.err "Not Found" ("Unable to find the package " ++ name), db)
  | some p =>
    let vs := versionsFor db p
    match vs.find? (fun v => v.semver == semver) with
    | none =>
      (.err "Not Found" ("Unable to find the version " ++ semver ++ " of " ++ name), db)
    | some target =>
      if vs.length ≤ 1 then
        (.err "Conflict"
          ("It\x27s not possible to leave the " ++ name ++
            " without at least one published version"), db)
      else
        let remainingAll := db.versions.filter (fun v => !(v.id == target.id))
        match target.status, remainingAll.filter (fun v => v.package == p) with
        | .latest, w :: ws =>
          let m := maxBySemver w ws
          let promoted := remainingAll.map (fun v =>
            if v.id == m.id then { v with status := Status.latest } else v)
          (.ok ("Removed " ++ semver ++ " of " ++ name ++ " and " ++ m.semver ++
             " is the new latest version."),
           { db with versions := promoted, time := db.time + 1 })
        | .latest, [] =>
          (.err "Server Error" "No remaining versions to promote.", db)
        | .published, _ =>
          (.ok ("Removed " ++ semver ++ " of " ++ name ++ "."),
           { db with versions := remainingAll, time := db.time + 1 })

/-- Modelled from the spec: `insertNewPackageName(newName, currentName)`
resolves the current name, verifies the new name is unused, inserts a new
name row for the pointer and updates the display name and updated
timestamp.  The spec taxonomy says NotFound for an unresolvable
`currentName`, but the repository test
(`insertNewPackageName` suite, "Should return Server Error for package
that doesn't exist") pins the implemented failure result to the short
string `Server Error`; the model follows the code. -/
def insertNewPackageName (db : Db) (newName currentName : String) : DbResult String × Db :=
  match findPointerByName db currentName with
  | none => (.err "Server Error" ("Unable to find the package " ++ currentName), db)
  | some p =>
    match findPointerByName db newName with
    | some _ => (.err "Conflict" ("The name " ++ newName ++ " is already taken."), db)
    | none =>
      (.ok ("Successfully inserted " ++ newName ++ "."),
       { db with
          names := db.names ++ [{ name := jsToLowerCase newName, pointer := p }],
          packages := db.packages.map (fun r =>
            if r.pointer == p then
              { r with name := jsToLowerCase newName, updated := db.time }
            else r),
          time := db.time + 1 })

/-- Increment the star counter of the rows of a pointer. -/
def incStarRow (p : Nat) (r : PackageRow) : PackageRow :=
  if r.pointer == p then { r with stargazers_count := r.stargazers_count + 1 } else r

/-- Decrement the star counter of the rows of a pointer. -/
def decStarRow (p : Nat) (r : PackageRow) : PackageRow :=
  if r.pointer == p then { r with stargazers_count := r.stargazers_count - 1 } else r

/-- Modelled from the spec: the counter path.  Resolves the name and
adjusts `stargazers_count` by +1 on the package row, returning the updated
summary; no star edge is touched. -/
def updatePackageIncrementStarByName (db : Db) (name : String) : DbResult PackageRow × Db :=
  match findPointerByName db name with
  | none => (.err "Not Found" ("Unable to find the package " ++ name), db)
  | some p =>
    match findPackageByPointer db p with
    | none => (.err "Not Found" ("Unable to find the package " ++ name), db)
    | some row =>
      (.ok (incStarRow p row),
       { db with packages := db.packages.map (incStarRow p) })

/-- Modelled from the spec: the counter path, decrement side. -/
def updatePackageDecrementStarByName (db : Db) (name : String) : DbResult PackageRow × Db :=
  match findPointerByName db name with
  | none => (.err "Not Found" ("Unable to find the package " ++ name), db)
  | some p =>
    match findPackageByPointer db p with
    | none => (.err "Not Found" ("Unable to find the package " ++ name), db)
    | some row =>
      (.ok (decStarRow p row),
       { db with packages := db.packages.map (decStarRow p) })

/-- Whether a star edge for the pointer and user exists. -/
def hasStar (db : Db) (p : Nat) (userId : Nat) : Bool :=
  db.stars.any (fun s => s.package == p && s.userId == userId)

/-- Modelled from the spec: the edge path.  `updateStars` resolves the
name, inserts the (pointer, user) star edge and increments the package
counter in the same transaction; an already-present edge is treated as a
success without changes (the idempotent-insert reading the spec offers).
The message shape is the one the integration test checks. -/
def updateStars (db : Db) (user : UserRow) (name : String) : DbResult String × Db :=
  match findPointerByName db name with
  | none => (.err "Not Found" ("Unable to find the package " ++ name), db)
  | some p =>
    if hasStar db p user.id then
      (.ok ("Successfully Stared " ++ toString p ++ " with " ++ toString user.id), db)
    else
      (.ok ("Successfully Stared " ++ toString p ++ " with " ++ toString user.id),
       { db with stars := db.stars ++ [{ package := p, userId := user.id }],
                 packages := db.packages.map (incStarRow p) })

/-- Modelled from the spec: the edge path, removal side.  Removing an
absent edge is NotFound; otherwise the edge is deleted and the counter
decremented in the same transaction. -/
def updateDeleteStar (db : Db) (user : UserRow) (name : String) : DbResult String × Db :=
  match findPointerByName db name with
  | none => (.err "Not Found" ("Unable to find the package " ++ name), db)
  | some p =>
    if hasStar db p user.id then
      (.ok ("Successfully Unstarred " ++ toString p ++ " with " ++ toString user.id),
       { db with
          stars := db.stars.filter (fun s => !(s.package == p && s.userId == user.id)),
          packages := db.packages.map (decStarRow p) })
    else
      (.err "Not Found" "The star was not found.", db)

end Database

/-! ### General list toolkit for the invariant proofs -/

theorem countP_congr_mem {α : Type} {p q : α → Bool} {l : List α}
    (h : ∀ a ∈ l, p a = q a) : l.countP p = l.countP q := by
  induction l with
  | nil => rfl
  | cons a as ih =>
    rw [List.countP_cons, List.countP_cons, ih (fun b hb => h b (List.mem_cons_of_mem a hb)),
      h a (List.mem_cons_self a as)]

theorem countP_pointwise {α : Type} {p q : α → Bool} (h : ∀ a, p a = q a)
    (l : List α) : l.countP p = l.countP q := by
  have hpq : p = q := funext h
  rw [hpq]

theorem map_nodup_inj {α β : Type} {f : α → β} {l : List α}
    (h : (l.map f).Nodup) :
    ∀ v ∈ l, ∀ w ∈ l, f v = f w → v = w := by
  induction l with
  | nil => intro v hv; simp at hv
  | cons a as ih =>
    rw [List.map_cons, List.nodup_cons] at h
    intro v hv w hw hfw
    rcases List.mem_cons.mp hv with hv | hv <;>
      rcases List.mem_cons.mp hw with hw | hw
    · rw [hv, hw]
    · exfalso
      exact h.1 (List.mem_map.mpr ⟨w, hw, (hv ▸ hfw).symm⟩)
    · exfalso
      exact h.1 (List.mem_map.mpr ⟨v, hv, hw ▸ hfw⟩)
    · exact ih h.2 v hv w hw hfw

theorem countP_ne_zero_of_mem {α : Type} {l : List α} {q : α → Bool} {v : α}
    (hv : v ∈ l) (hq : q v = true) : l.countP q ≠ 0 := by
  intro h0
  exact (List.countP_eq_zero.mp h0 v hv) hq

theorem countP_eq_one_unique {α : Type} {l : List α} {q : α → Bool}
    (hc : l.countP q = 1) {v w : α} (hv : v ∈ l) (hqv : q v = true)
    (hw : w ∈ l) (hqw : q w = true) : v = w := by
  obtain ⟨s, t, rfl⟩ := List.append_of_mem hv
  rw [List.countP_append, List.countP_cons, hqv, if_pos rfl] at hc
  have hs : s.countP q = 0 := by omega
  have ht : t.countP q = 0 := by omega
  rcases List.mem_append.mp hw with hws | hwt
  · exact absurd hqw (List.countP_eq_zero.mp hs w hws)
  · rcases List.mem_cons.mp hwt with hwv | hwt
    · exact hwv.symm
    · exact absurd hqw (List.countP_eq_zero.mp ht w hwt)

theorem split_unique_key {α β : Type} {f : α → β} {l : List α}
    (hnd : (l.map f).Nodup) {v : α} (hv : v ∈ l) :
    ∃ s t, l = s ++ v :: t ∧ (∀ w ∈ s, f w ≠ f v) ∧ (∀ w ∈ t, f w ≠ f v) := by
  obtain ⟨s, t, rfl⟩ := List.append_of_mem hv
  refine ⟨s, t, rfl, ?_, ?_⟩
  · intro w hw hfw
    rw [List.map_append, List.map_cons, List.nodup_append] at hnd
    have hmem : f w ∈ f v :: List.map f t := by
      rw [hfw]
      exact List.mem_cons_self _ _
    exact hnd.2.2 (List.mem_map.mpr ⟨w, hw, rfl⟩) hmem
  · intro w hw hfw
    rw [List.map_append, List.map_cons] at hnd
    have hnd2 := (List.nodup_append.mp hnd).2.1
    rw [List.nodup_cons] at hnd2
    exact hnd2.1 (List.mem_map.mpr ⟨w, hw, hfw⟩)

/-! ### Facts about the semver ordering -/

theorem triLt_trans {a b c : Nat × Nat × Nat}
    (h1 : triLt a b) (h2 : triLt b c) : triLt a c := by
  obtain ⟨a1, a2, a3⟩ := a
  obtain ⟨b1, b2, b3⟩ := b
  obtain ⟨c1, c2, c3⟩ := c
  unfold triLt at h1 h2 ⊢
  simp only at h1 h2 ⊢
  omega

theorem triLt_irrefl (a : Nat × Nat × Nat) : ¬triLt a a := by
  obtain ⟨a1, a2, a3⟩ := a
  unfold triLt
  simp only
  omega

theorem semverGtB_trans {a b c : String}
    (h1 : semverGtB a b = true) (h2 : semverGtB b c = true) :
    semverGtB a c = true := by
  unfold semverGtB at h1 h2 ⊢
  cases hpa : parseSemver a <;> cases hpb : parseSemver b <;>
    cases hpc : parseSemver c <;> simp_all
  exact triLt_trans h2 h1

theorem semverGtB_irrefl (a : String) : semverGtB a a = false := by
  unfold semverGtB
  rcases ha : parseSemver a with _ | x
  · rfl
  · exact decide_eq_false (triLt_irrefl x)

/-! ### Facts about `maxBySemver` -/

theorem maxBySemver_mem (v : VersionRow) (rest : List VersionRow) :
    Database.maxBySemver v rest ∈ v :: rest := by
  unfold Database.maxBySemver
  induction rest generalizing v with
  | nil => exact List.mem_cons_self _ _
  | cons u us ih =>
    rw [List.foldl_cons]
    rcases List.mem_cons.mp (ih (if semverGtB u.semver v.semver then u else v)) with h | h
    · rw [h]
      by_cases hg : semverGtB u.semver v.semver
      · rw [if_pos hg]
        exact List.mem_cons_of_mem _ (List.mem_cons_self _ _)
      · rw [if_neg hg]
        exact List.mem_cons_self _ _
    · exact List.mem_cons_of_mem _ (List.mem_cons_of_mem _ h)

theorem maxBySemver_acc_le (v : VersionRow) (rest : List VersionRow) :
    Database.maxBySemver v rest = v ∨
      semverGtB (Database.maxBySemver v rest).semver v.semver = true := by
  unfold Database.maxBySemver
  induction rest generalizing v with
  | nil => exact Or.inl rfl
  | cons u us ih =>
    rw [List.foldl_cons]
    by_cases hg : semverGtB u.semver v.semver
    · rw [if_pos hg]
      rcases ih u with h | h
      · right; rw [h]; exact hg
      · right; exact semverGtB_trans h hg
    · rw [if_neg hg]
      exact ih v

theorem maxBySemver_not_gt (v : VersionRow) (rest : List VersionRow) :
    ∀ w ∈ v :: rest,
      semverGtB w.semver (Database.maxBySemver v rest).semver = false := by
  induction rest generalizing v with
  | nil =>
    intro w hw
    rcases List.mem_cons.mp hw with hw | hw
    · rw [hw]
      exact semverGtB_irrefl v.semver
    · simp at hw
  | cons u us ih =>
    intro w hw
    have hstep : Database.maxBySemver v (u :: us) =
        Database.maxBySemver (if semverGtB u.semver v.semver then u else v) us := by
      unfold Database.maxBySemver
      rw [List.foldl_cons]
    rw [hstep]
    rcases List.mem_cons.mp hw with hwv | hwuus
    · -- w is the old accumulator v
      subst hwv
      by_cases hg : semverGtB u.semver w.semver = true
      · rw [if_pos hg] at hstep ⊢
        cases hb : semverGtB w.semver (Database.maxBySemver u us).semver with
        | false => rfl
        | true =>
          exfalso
          have hself : semverGtB w.semver w.semver = true := by
            rcases maxBySemver_acc_le u us with h | h
            · rw [h] at hb
              exact semverGtB_trans hb hg
            · exact semverGtB_trans (semverGtB_trans hb h) hg
          rw [semverGtB_irrefl] at hself
          exact Bool.noConfusion hself
      · rw [if_neg hg] at hstep ⊢
        exact ih w w (List.mem_cons_self _ _)
    · rcases List.mem_cons.mp hwuus with hwu | hwus
      · -- w is the new element u
        subst hwu
        by_cases hg : semverGtB w.semver v.semver = true
        · rw [if_pos hg] at hstep ⊢
          exact ih w w (List.mem_cons_self _ _)
        · rw [if_neg hg] at hstep ⊢
          cases hb : semverGtB w.semver (Database.maxBySemver v us).semver with
          | false => rfl
          | true =>
            exfalso
            rcases maxBySemver_acc_le v us with h | h
            · rw [h] at hb
              exact hg hb
            · exact hg (semverGtB_trans hb h)
      · by_cases hg : semverGtB u.semver v.semver = true
        · rw [if_pos hg]
          exact ih u w (List.mem_cons_of_mem _ hwus)
        · rw [if_neg hg]
          exact ih v w (List.mem_cons_of_mem _ hwus)

/-! ### The single-latest invariant -/

/-- The rows of pointer `p`. -/
def isVerOf (p : Nat) (v : VersionRow) : Bool :=
  v.package == p

/-- The `latest` rows of pointer `p`. -/
def isLatestOf (p : Nat) (v : VersionRow) : Bool :=
  v.package == p && v.status.isLatest

/-- Well-formedness of the store: surrogate version keys are distinct and
below the generator, pointers in use are below the pointer generator, and
every pointer owning at least one version row owns exactly one `latest`
row. -/
structure DbInv (db : Db) : Prop where
  idsNodup : (db.versions.map VersionRow.id).Nodup
  idsLt : ∀ v ∈ db.versions, v.id < db.nextVersionId
  pkgLt : ∀ v ∈ db.versions, v.package < db.nextPointer
  nameLt : ∀ n ∈ db.names, n.pointer < db.nextPointer
  latestUnique : ∀ p, db.versions.countP (isVerOf p) ≠ 0 →
    db.versions.countP (isLatestOf p) = 1

theorem dbInv_empty : DbInv emptyDb := by
  constructor <;> simp [emptyDb]

theorem findPointer_lt {db : Db} {n : String} {p : Nat} (hinv : DbInv db)
    (h : Database.findPointerByName db n = some p) : p < db.nextPointer := by
  unfold Database.findPointerByName at h
  cases hf : db.names.find? (fun r => r.name == jsToLowerCase n) with
  | none => rw [hf] at h; exact Option.noConfusion h
  | some r =>
    rw [hf] at h
    obtain rfl : r.pointer = p := Option.some.inj h
    exact hinv.nameLt r (List.mem_of_find?_eq_some hf)

/-! ### Shape equations for the mutating operations -/

theorem insertNewPackage_eq_ok {db : Db} {pack : Database.NewPack}
    (hf : Database.findPointerByName db pack.name = none) :
    Database.insertNewPackage db pack =
      (DbResult.ok db.nextPointer,
       { db with
          packages := db.packages ++
            [{ pointer := db.nextPointer, name := jsToLowerCase pack.name,
               created := db.time, updated := db.time,
               creation_method := pack.creation_method, downloads := 0,
               stargazers_count := 0, original_stargazers := 0,
               package_type := pack.packageType, data := pack.metadata }],
          names := db.names ++
            [{ name := jsToLowerCase pack.name, pointer := db.nextPointer }],
          versions := db.versions ++
            [{ id := db.nextVersionId, package := db.nextPointer,
               status := Status.latest, semver := pack.version,
               license := pack.license, meta := pack.metadata }],
          nextPointer := db.nextPointer + 1,
          nextVersionId := db.nextVersionId + 1,
          time := db.time + 1 }) := by
  unfold Database.insertNewPackage
  rw [hf]

theorem insertNewPackageVersion_eq_of_gt {db : Db} {desc : Database.VerDesc}
    {p : Nat} {lat : VersionRow}
    (hf : Database.findPointerByName db desc.name = some p)
    (hl : Database.findLatestRow db p = some lat)
    (hgt : semverGtB desc.version lat.semver = true) :
    Database.insertNewPackageVersion db desc =
      (DbResult.ok ("Successfully added new version: " ++ desc.name ++ "@" ++ desc.version),
       { db with
          versions := Database.demoteLatestFor p db.versions ++
            [{ id := db.nextVersionId, package := p, status := Status.latest,
               semver := desc.version, license := desc.license, meta := desc.meta }],
          nextVersionId := db.nextVersionId + 1,
          time := db.time + 1 }) := by
  unfold Database.insertNewPackageVersion
  rw [hf]
  simp only [hl, hgt, if_true]

theorem insertNewPackageVersion_eq_of_le {db : Db} {desc : Database.VerDesc}
    {p : Nat} {lat : VersionRow}
    (hf : Database.findPointerByName db desc.name = some p)
    (hl : Database.findLatestRow db p = some lat)
    (hgt : semverGtB desc.version lat.semver = false) :
    Database.insertNewPackageVersion db desc =
      (DbResult.ok ("Successfully added new version: " ++ desc.name ++ "@" ++ desc.version),
       { db with
          versions := db.versions ++
            [{ id := db.nextVersionId, package := p, status := Status.published,
               semver := desc.version, license := desc.license, meta := desc.meta }],
          nextVersionId := db.nextVersionId + 1,
          time := db.time + 1 }) := by
  unfold Database.insertNewPackageVersion
  rw [hf]
  simp only [hl, hgt, Bool.false_eq_true, if_false]

theorem removePackageVersion_eq_conflict {db : Db} {name semver : String}
    {p : Nat} {target : VersionRow}
    (hf : Database.findPointerByName db name = some p)
    (hfind : (Database.versionsFor db p).find? (fun v => v.semver == semver) = some target)
    (hlen : (Database.versionsFor db p).length ≤ 1) :
    Database.removePackageVersion db name semver =
      (DbResult.err "Conflict"
        ("It\x27s not possible to leave the " ++ name ++
          " without at least one published version"), db) := by
  unfold Database.removePackageVersion
  rw [hf]
  simp only [hfind, hlen, if_pos]

theorem removePackageVersion_eq_published {db : Db} {name semver : String}
    {p : Nat} {target : VersionRow}
    (hf : Database.findPointerByName db name = some p)
    (hfind : (Database.versionsFor db p).find? (fun v => v.semver == semver) = some target)
    (hlen : ¬(Database.versionsFor db p).length ≤ 1)
    (hst : target.status = Status.published) :
    Database.removePackageVersion db name semver =
      (DbResult.ok ("Removed " ++ semver ++ " of " ++ name ++ "."),
       { db with
          versions := db.versions.filter (fun v => !(v.id == target.id)),
          time := db.time + 1 }) := by
  unfold Database.removePackageVersion
  rw [hf]
  simp only [hfind, hlen, if_false, hst]

theorem removePackageVersion_eq_latest {db : Db} {name semver : String}
    {p : Nat} {target w : VersionRow} {ws : List VersionRow}
    (hf : Database.findPointerByName db name = some p)
    (hfind : (Database.versionsFor db p).find? (fun v => v.semver == semver) = some target)
    (hlen : ¬(Database.versionsFor db p).length ≤ 1)
    (hst : target.status = Status.latest)
    (hrem : (db.versions.filter (fun v => !(v.id == target.id))).filter
      (fun v => v.package == p) = w :: ws) :
    Database.removePackageVersion db name semver =
      (DbResult.ok ("Removed " ++ semver ++ " of " ++ name ++ " and " ++
         (Database.maxBySemver w ws).semver ++ " is the new latest version."),
       { db with
          versions := (db.versions.filter (fun v => !(v.id == target.id))).map
            (fun v => if v.id == (Database.maxBySemver w ws).id then
              { v with status := Status.latest } else v),
          time := db.time + 1 }) := by
  unfold Database.removePackageVersion
  rw [hf]
  simp only [hfind, hlen, if_false, hst, hrem]

/-! ### Helper facts about statuses, demotion and fresh keys -/

theorem Status.isLatest_iff {s : Status} : s.isLatest = true ↔ s = Status.latest := by
  cases s <;> simp [Status.isLatest]

theorem isLatestOf_eq_true {p : Nat} {v : VersionRow} :
    isLatestOf p v = true ↔ v.package = p ∧ v.status = Status.latest := by
  unfold isLatestOf
  rw [Bool.and_eq_true, beq_iff_eq, Status.isLatest_iff]

theorem isVerOf_eq_true {p : Nat} {v : VersionRow} :
    isVerOf p v = true ↔ v.package = p := by
  unfold isVerOf
  rw [beq_iff_eq]

theorem demote_map_id (p : Nat) (l : List VersionRow) :
    (Database.demoteLatestFor p l).map VersionRow.id = l.map VersionRow.id := by
  unfold Database.demoteLatestFor
  rw [List.map_map]
  apply List.map_congr_left
  intro v _
  show (if (v.package == p && v.status.isLatest) = true then
      { v with status := Status.published } else v).id = v.id
  split <;> rfl

theorem demote_mem {p : Nat} {l : List VersionRow} {v : VersionRow}
    (h : v ∈ Database.demoteLatestFor p l) :
    ∃ w ∈ l, v.id = w.id ∧ v.package = w.package := by
  unfold Database.demoteLatestFor at h
  obtain ⟨w, hw, rfl⟩ := List.mem_map.mp h
  refine ⟨w, hw, ?_, ?_⟩
  · show (if (w.package == p && w.status.isLatest) = true then
        { w with status := Status.published } else w).id = w.id
    split <;> rfl
  · show (if (w.package == p && w.status.isLatest) = true then
        { w with status := Status.published } else w).package = w.package
    split <;> rfl

theorem countP_demote_latest_self (p : Nat) (l : List VersionRow) :
    (Database.demoteLatestFor p l).countP (isLatestOf p) = 0 := by
  unfold Database.demoteLatestFor
  rw [List.countP_map]
  apply List.countP_eq_zero.mpr
  intro v _
  show ¬(isLatestOf p (if (v.package == p && v.status.isLatest) = true then
      { v with status := Status.published } else v) = true)
  split
  · intro hl
    rw [isLatestOf_eq_true] at hl
    exact Bool.noConfusion ((Status.isLatest_iff.mpr hl.2).symm.trans rfl)
  · rename_i hc
    exact hc

theorem countP_demote_latest_ne {q p : Nat} (hne : q ≠ p) (l : List VersionRow) :
    (Database.demoteLatestFor p l).countP (isLatestOf q) = l.countP (isLatestOf q) := by
  unfold Database.demoteLatestFor
  rw [List.countP_map]
  apply countP_pointwise
  intro v
  show isLatestOf q (if (v.package == p && v.status.isLatest) = true then
      { v with status := Status.published } else v) = isLatestOf q v
  split
  · rename_i hc
    rw [Bool.and_eq_true, beq_iff_eq] at hc
    have hpq : (v.package == q) = false := by
      rw [beq_eq_false_iff_ne, hc.1]
      omega
    show (v.package == q && Status.published.isLatest) = (v.package == q && v.status.isLatest)
    rw [hpq, Bool.false_and, Bool.false_and]
  · rfl

theorem countP_demote_ver (q p : Nat) (l : List VersionRow) :
    (Database.demoteLatestFor p l).countP (isVerOf q) = l.countP (isVerOf q) := by
  unfold Database.demoteLatestFor
  rw [List.countP_map]
  apply countP_pointwise
  intro v
  show isVerOf q (if (v.package == p && v.status.isLatest) = true then
      { v with status := Status.published } else v) = isVerOf q v
  split <;> rfl

theorem nodup_ids_append_fresh {l : List VersionRow} {nid : Nat}
    (hnd : (l.map VersionRow.id).Nodup) (hlt : ∀ v ∈ l, v.id < nid)
    {w : VersionRow} (hw : w.id = nid) :
    ((l ++ [w]).map VersionRow.id).Nodup := by
  rw [List.map_append, List.map_singleton, List.nodup_append]
  refine ⟨hnd, List.nodup_singleton _, ?_⟩
  rw [List.disjoint_singleton]
  intro hmem
  obtain ⟨v, hv, hvid⟩ := List.mem_map.mp hmem
  rw [hw] at hvid
  exact absurd hvid (Nat.ne_of_lt (hlt v hv))

/-! ### Invariant preservation -/

theorem dbInv_insertNewPackage (db : Db) (pack : Database.NewPack)
    (hinv : DbInv db) : DbInv (Database.insertNewPackage db pack).2 := by
  cases hf : Database.findPointerByName db pack.name with
  | some q =>
    unfold Database.insertNewPackage
    rw [hf]
    exact hinv
  | none =>
    rw [insertNewPackage_eq_ok hf]
    refine ⟨?_, ?_, ?_, ?_, ?_⟩
    · exact nodup_ids_append_fresh hinv.idsNodup hinv.idsLt rfl
    · intro v hv
      rcases List.mem_append.mp hv with h | h
      · exact Nat.lt_succ_of_lt (hinv.idsLt v h)
      · rw [List.mem_singleton] at h
        rw [h]
        exact Nat.lt_succ_self _
    · intro v hv
      rcases List.mem_append.mp hv with h | h
      · exact Nat.lt_succ_of_lt (hinv.pkgLt v h)
      · rw [List.mem_singleton] at h
        rw [h]
        exact Nat.lt_succ_self _
    · intro nrow hn
      rcases List.mem_append.mp hn with h | h
      · exact Nat.lt_succ_of_lt (hinv.nameLt nrow h)
      · rw [List.mem_singleton] at h
        rw [h]
        exact Nat.lt_succ_self _
    · intro q hq
      rw [List.countP_append] at hq ⊢
      by_cases hqP : q = db.nextPointer
      · have hold0 : db.versions.countP (isLatestOf q) = 0 := by
          apply List.countP_eq_zero.mpr
          intro v hv hl
          have := (isLatestOf_eq_true.mp hl).1
          have := hinv.pkgLt v hv
          omega
        rw [hold0]
        simp [isLatestOf, Status.isLatest, hqP]
      · have hnewver : ∀ q₂ : Nat, q₂ ≠ db.nextPointer →
            ([({ id := db.nextVersionId, package := db.nextPointer,
                 status := Status.latest, semver := pack.version,
                 license := pack.license, meta := pack.metadata } :
                VersionRow)].countP (isVerOf q₂) = 0 ∧
             [({ id := db.nextVersionId, package := db.nextPointer,
                 status := Status.latest, semver := pack.version,
                 license := pack.license, meta := pack.metadata } :
                VersionRow)].countP (isLatestOf q₂) = 0) := by
          intro q₂ hne
          constructor <;>
          · apply List.countP_eq_zero.mpr
            intro v hv
            rw [List.mem_singleton] at hv
            subst hv
            simp [isVerOf, isLatestOf, Ne.symm hne]
        obtain ⟨hv0, hl0⟩ := hnewver q hqP
        rw [hv0] at hq
        rw [hl0]
        rw [Nat.add_zero] at hq ⊢
        exact hinv.latestUnique q hq

theorem countP_singleton {α : Type} (q : α → Bool) (a : α) :
    [a].countP q = if q a = true then 1 else 0 := by
  rw [List.countP_cons, List.countP_nil, Nat.zero_add]

theorem dbInv_insertNewPackageVersion (db : Db) (desc : Database.VerDesc)
    (hinv : DbInv db) : DbInv (Database.insertNewPackageVersion db desc).2 := by
  cases hf : Database.findPointerByName db desc.name with
  | none =>
    unfold Database.insertNewPackageVersion
    rw [hf]
    exact hinv
  | some p =>
    cases hl : Database.findLatestRow db p with
    | none =>
      unfold Database.insertNewPackageVersion
      rw [hf]
      simp only [hl]
      exact hinv
    | some lat =>
      have hl' : db.versions.find? (fun v => v.package == p && v.status.isLatest) =
          some lat := hl
      have hlatmem : lat ∈ db.versions := List.mem_of_find?_eq_some hl'
      have hlatpred : (lat.package == p) = true ∧ lat.status.isLatest = true := by
        have h2 := List.find?_some hl'
        rw [← Bool.and_eq_true]
        exact h2
      have hpLt : p < db.nextPointer := findPointer_lt hinv hf
      cases hgt : semverGtB desc.version lat.semver with
      | true =>
        rw [insertNewPackageVersion_eq_of_gt hf hl hgt]
        have hdn : ((Database.demoteLatestFor p db.versions).map VersionRow.id).Nodup := by
          rw [demote_map_id]
          exact hinv.idsNodup
        have hdlt : ∀ v ∈ Database.demoteLatestFor p db.versions,
            v.id < db.nextVersionId := by
          intro v hv
          obtain ⟨w, hw, hid, _⟩ := demote_mem hv
          rw [hid]
          exact hinv.idsLt w hw
        have hdpkg : ∀ v ∈ Database.demoteLatestFor p db.versions,
            v.package < db.nextPointer := by
          intro v hv
          obtain ⟨w, hw, _, hpkg⟩ := demote_mem hv
          rw [hpkg]
          exact hinv.pkgLt w hw
        refine ⟨nodup_ids_append_fresh hdn hdlt rfl, ?_, ?_, ?_, ?_⟩
        · intro v hv
          rcases List.mem_append.mp hv with h | h
          · exact Nat.lt_succ_of_lt (hdlt v h)
          · rw [List.mem_singleton] at h
            rw [h]
            exact Nat.lt_succ_self _
        · intro v hv
          rcases List.mem_append.mp hv with h | h
          · exact hdpkg v h
          · rw [List.mem_singleton] at h
            rw [h]
            exact hpLt
        · exact hinv.nameLt
        · intro q hq
          rw [List.countP_append] at hq ⊢
          by_cases hqp : q = p
          · rw [hqp, countP_demote_latest_self, countP_singleton]
            have hone : isLatestOf p ({ id := db.nextVersionId, package := p,
                                        status := Status.latest, semver := desc.version,
                                        license := desc.license, meta := desc.meta } :
                VersionRow) = true := by
              rw [isLatestOf_eq_true]
              exact ⟨rfl, rfl⟩
            rw [hone, if_pos rfl]
          · rw [countP_demote_latest_ne hqp, countP_singleton]
            have hl0 : isLatestOf q ({ id := db.nextVersionId, package := p,
                                       status := Status.latest, semver := desc.version,
                                       license := desc.license, meta := desc.meta } :
                VersionRow) = false := by
              rw [Bool.eq_false_iff]
              intro hc
              exact hqp ((isLatestOf_eq_true.mp hc).1.symm)
            have hv0 : isVerOf q ({ id := db.nextVersionId, package := p,
                                    status := Status.latest, semver := desc.version,
                                    license := desc.license, meta := desc.meta } :
                VersionRow) = false := by
              rw [Bool.eq_false_iff]
              intro hc
              exact hqp ((isVerOf_eq_true.mp hc).symm)
            rw [hl0, if_neg (by rw [Bool.false_eq_true]; exact not_false), Nat.add_zero]
            rw [countP_demote_ver, countP_singleton, hv0,
              if_neg (by rw [Bool.false_eq_true]; exact not_false), Nat.add_zero] at hq
            exact hinv.latestUnique q hq
      | false =>
        rw [insertNewPackageVersion_eq_of_le hf hl hgt]
        refine ⟨nodup_ids_append_fresh hinv.idsNodup hinv.idsLt rfl, ?_, ?_, ?_, ?_⟩
        · intro v hv
          rcases List.mem_append.mp hv with h | h
          · exact Nat.lt_succ_of_lt (hinv.idsLt v h)
          · rw [List.mem_singleton] at h
            rw [h]
            exact Nat.lt_succ_self _
        · intro v hv
          rcases List.mem_append.mp hv with h | h
          · exact hinv.pkgLt v h
          · rw [List.mem_singleton] at h
            rw [h]
            exact hpLt
        · exact hinv.nameLt
        · intro q hq
          rw [List.countP_append] at hq ⊢
          have hl0 : isLatestOf q ({ id := db.nextVersionId, package := p,
                                     status := Status.published, semver := desc.version,
                                     license := desc.license, meta := desc.meta } :
              VersionRow) = false := by
            rw [Bool.eq_false_iff]
            intro hc
            exact Status.noConfusion (isLatestOf_eq_true.mp hc).2
          rw [countP_singleton, hl0,
            if_neg (by rw [Bool.false_eq_true]; exact not_false), Nat.add_zero]
          by_cases hqp : q = p
          · rw [hqp]
            apply hinv.latestUnique
            apply countP_ne_zero_of_mem hlatmem
            exact hlatpred.1
          · have hv0 : isVerOf q ({ id := db.nextVersionId, package := p,
                                    status := Status.published, semver := desc.version,
                                    license := desc.license, meta := desc.meta } :
                VersionRow) = false := by
              rw [Bool.eq_false_iff]
              intro hc
              exact hqp ((isVerOf_eq_true.mp hc).symm)
            rw [countP_singleton, hv0,
              if_neg (by rw [Bool.false_eq_true]; exact not_false), Nat.add_zero] at hq
            exact hinv.latestUnique q hq

/-! ### Helper facts about deletion and promotion -/

theorem countP_filter_le (l : List VersionRow) (t : VersionRow) (qq : VersionRow → Bool) :
    (l.filter (fun v => !(v.id == t.id))).countP qq ≤ l.countP qq := by
  rw [List.countP_filter]
  apply List.countP_mono_left
  intro v _ hv
  rw [Bool.and_eq_true] at hv
  exact hv.1

theorem countP_filter_ne_id {l : List VersionRow} (hnd : (l.map VersionRow.id).Nodup)
    {t : VersionRow} (ht : t ∈ l) {qq : VersionRow → Bool} (hqt : qq t = false) :
    (l.filter (fun v => !(v.id == t.id))).countP qq = l.countP qq := by
  rw [List.countP_filter]
  apply countP_congr_mem
  intro v hv
  by_cases hq : qq v = true
  · have hne : (v.id == t.id) = false := by
      rw [beq_eq_false_iff_ne]
      intro hide
      have hveq : v = t := map_nodup_inj hnd v hv t ht hide
      rw [hveq, hqt] at hq
      exact Bool.noConfusion hq
    rw [hq, hne]
    rfl
  · have hq0 : qq v = false := Bool.eq_false_iff.mpr hq
    rw [hq0, Bool.false_and]

theorem promote_map_id (i : Nat) (l : List VersionRow) :
    ((l.map (fun v => if v.id == i then { v with status := Status.latest } else v)).map
      VersionRow.id) = l.map VersionRow.id := by
  rw [List.map_map]
  apply List.map_congr_left
  intro v _
  show (if (v.id == i) = true then { v with status := Status.latest } else v).id = v.id
  split <;> rfl

theorem promote_mem {i : Nat} {l : List VersionRow} {v : VersionRow}
    (h : v ∈ l.map (fun v => if v.id == i then { v with status := Status.latest } else v)) :
    ∃ w ∈ l, v.id = w.id ∧ v.package = w.package := by
  obtain ⟨w, hw, rfl⟩ := List.mem_map.mp h
  refine ⟨w, hw, ?_, ?_⟩
  · show (if (w.id == i) = true then { w with status := Status.latest } else w).id = w.id
    split <;> rfl
  · show (if (w.id == i) = true then
        { w with status := Status.latest } else w).package = w.package
    split <;> rfl

theorem countP_promote_ver (i q : Nat) (l : List VersionRow) :
    ((l.map (fun v => if v.id == i then { v with status := Status.latest }
      else v)).countP (isVerOf q)) = l.countP (isVerOf q) := by
  rw [List.countP_map]
  apply countP_pointwise
  intro v
  show isVerOf q (if (v.id == i) = true then { v with status := Status.latest } else v) =
    isVerOf q v
  split <;> rfl

theorem dbInv_removePackageVersion (db : Db) (name semver : String)
    (hinv : DbInv db) : DbInv (Database.removePackageVersion db name semver).2 := by
  cases hf : Database.findPointerByName db name with
  | none =>
    unfold Database.removePackageVersion
    rw [hf]
    exact hinv
  | some p =>
    cases hfind : (Database.versionsFor db p).find? (fun v => v.semver == semver) with
    | none =>
      unfold Database.removePackageVersion
      rw [hf]
      simp only [hfind]
      exact hinv
    | some target =>
      have htmem0 : target ∈ Database.versionsFor db p := List.mem_of_find?_eq_some hfind
      have htmem : target ∈ db.versions := (List.mem_filter.mp htmem0).1
      have htp : target.package = p := beq_iff_eq.mp (List.mem_filter.mp htmem0).2
      by_cases hlen : (Database.versionsFor db p).length ≤ 1
      · rw [removePackageVersion_eq_conflict hf hfind hlen]
        exact hinv
      · have hremids :
            ((db.versions.filter (fun v => !(v.id == target.id))).map VersionRow.id).Nodup :=
          List.Nodup.sublist ((List.filter_sublist _).map _) hinv.idsNodup
        cases hst : target.status with
        | published =>
          rw [removePackageVersion_eq_published hf hfind hlen hst]
          show DbInv { db with
            versions := db.versions.filter (fun v => !(v.id == target.id)),
            time := db.time + 1 }
          refine ⟨hremids, ?_, ?_, ?_, ?_⟩
          · intro v hv
            exact hinv.idsLt v (List.mem_filter.mp hv).1
          · intro v hv
            exact hinv.pkgLt v (List.mem_filter.mp hv).1
          · exact hinv.nameLt
          · intro q hq
            have hqt : isLatestOf q target = false := by
              rw [Bool.eq_false_iff]
              intro hc
              have h2 := (isLatestOf_eq_true.mp hc).2
              rw [hst] at h2
              exact Status.noConfusion h2
            rw [countP_filter_ne_id hinv.idsNodup htmem hqt]
            apply hinv.latestUnique
            have hq2 : (db.versions.filter
                (fun v => !(v.id == target.id))).countP (isVerOf q) ≠ 0 := hq
            intro h0
            have hle := countP_filter_le db.versions target (isVerOf q)
            omega
        | latest =>
          have hvs_nodup : ((Database.versionsFor db p).map VersionRow.id).Nodup :=
            List.Nodup.sublist ((List.filter_sublist _).map _) hinv.idsNodup
          obtain ⟨s, u, hsplit, hsne, hune⟩ := split_unique_key hvs_nodup htmem0
          have hfilter_vs :
              (Database.versionsFor db p).filter (fun v => !(v.id == target.id)) =
                s ++ u := by
            rw [hsplit, List.filter_append, List.filter_cons]
            have ht_self : (!(target.id == target.id)) = false := by simp
            rw [ht_self]
            simp only [Bool.false_eq_true, if_false]
            have hseq : s.filter (fun v => !(v.id == target.id)) = s := by
              apply List.filter_eq_self.mpr
              intro w hw
              rw [Bool.not_eq_eq_eq_not]
              show (w.id == target.id) = false
              rw [beq_eq_false_iff_ne]
              exact hsne w hw
            have hueq : u.filter (fun v => !(v.id == target.id)) = u := by
              apply List.filter_eq_self.mpr
              intro w hw
              rw [Bool.not_eq_eq_eq_not]
              show (w.id == target.id) = false
              rw [beq_eq_false_iff_ne]
              exact hune w hw
            rw [hseq, hueq]
          have hcomm :
              (db.versions.filter (fun v => !(v.id == target.id))).filter
                (fun v => v.package == p) =
              (Database.versionsFor db p).filter (fun v => !(v.id == target.id)) := by
            unfold Database.versionsFor
            rw [List.filter_filter, List.filter_filter]
            apply List.filter_congr
            intro v _
            rw [Bool.and_comm]
          have hlen2 : 2 ≤ (Database.versionsFor db p).length := Nat.not_le.mp hlen
          obtain ⟨w, ws, hwws⟩ : ∃ w ws, s ++ u = w :: ws := by
            cases hc : s ++ u with
            | nil =>
              exfalso
              rw [hsplit, List.length_append, List.length_cons] at hlen2
              have hc2 : s.length + u.length = 0 := by
                have := congrArg List.length hc
                rw [List.length_append] at this
                exact this
              omega
            | cons w2 ws2 => exact ⟨w2, ws2, rfl⟩
          have hrem :
              (db.versions.filter (fun v => !(v.id == target.id))).filter
                (fun v => v.package == p) = w :: ws := by
            rw [hcomm, hfilter_vs, hwws]
          rw [removePackageVersion_eq_latest hf hfind hlen hst hrem]
          show DbInv { db with
            versions := (db.versions.filter (fun v => !(v.id == target.id))).map
              (fun v => if v.id == (Database.maxBySemver w ws).id then
                { v with status := Status.latest } else v),
            time := db.time + 1 }
          have hm_mem_cons : Database.maxBySemver w ws ∈ w :: ws := maxBySemver_mem w ws
          rw [← hrem] at hm_mem_cons
          have hm_rem : Database.maxBySemver w ws ∈
              db.versions.filter (fun v => !(v.id == target.id)) :=
            (List.mem_filter.mp hm_mem_cons).1
          have hm_p : (Database.maxBySemver w ws).package = p :=
            beq_iff_eq.mp (List.mem_filter.mp hm_mem_cons).2
          have hm_mem : Database.maxBySemver w ws ∈ db.versions :=
            (List.mem_filter.mp hm_rem).1
          have hone : db.versions.countP (isLatestOf p) = 1 :=
            hinv.latestUnique p
              (countP_ne_zero_of_mem htmem (isVerOf_eq_true.mpr htp))
          have htlat : isLatestOf p target = true := isLatestOf_eq_true.mpr ⟨htp, hst⟩
          have hallpub : ∀ v ∈ db.versions.filter (fun v => !(v.id == target.id)),
              v.package = p → v.status = Status.published := by
            intro v hv hvp
            cases hvs : v.status with
            | published => rfl
            | latest =>
              exfalso
              have hvl : isLatestOf p v = true := isLatestOf_eq_true.mpr ⟨hvp, hvs⟩
              have hveq : v = target :=
                countP_eq_one_unique hone (List.mem_filter.mp hv).1 hvl htmem htlat
              have hpred := (List.mem_filter.mp hv).2
              rw [hveq] at hpred
              simp at hpred
          refine ⟨?_, ?_, ?_, ?_, ?_⟩
          · rw [promote_map_id]
            exact hremids
          · intro v hv
            obtain ⟨v2, hv2, hid, _⟩ := promote_mem hv
            rw [hid]
            exact hinv.idsLt v2 (List.mem_filter.mp hv2).1
          · intro v hv
            obtain ⟨v2, hv2, _, hpkg⟩ := promote_mem hv
            rw [hpkg]
            exact hinv.pkgLt v2 (List.mem_filter.mp hv2).1
          · exact hinv.nameLt
          · intro q hq
            rw [List.countP_map] at hq ⊢
            by_cases hqp : q = p
            · rw [hqp]
              have hcnt : (db.versions.filter (fun v => !(v.id == target.id))).countP
                  ((isLatestOf p) ∘ (fun v => if v.id == (Database.maxBySemver w ws).id
                    then { v with status := Status.latest } else v)) =
                  (db.versions.filter (fun v => !(v.id == target.id))).countP
                    (fun v => v.id == (Database.maxBySemver w ws).id) := by
                apply countP_congr_mem
                intro v hv
                by_cases hid : (v.id == (Database.maxBySemver w ws).id) = true
                · have hveq : v = Database.maxBySemver w ws :=
                    map_nodup_inj hremids v hv _ hm_rem (beq_iff_eq.mp hid)
                  show isLatestOf p (if (v.id == (Database.maxBySemver w ws).id) = true
                      then { v with status := Status.latest } else v) =
                    (v.id == (Database.maxBySemver w ws).id)
                  rw [if_pos hid, hid]
                  rw [isLatestOf_eq_true]
                  refine ⟨?_, rfl⟩
                  show v.package = p
                  rw [hveq]
                  exact hm_p
                · have hid0 : (v.id == (Database.maxBySemver w ws).id) = false :=
                    Bool.eq_false_iff.mpr hid
                  show isLatestOf p (if (v.id == (Database.maxBySemver w ws).id) = true
                      then { v with status := Status.latest } else v) =
                    (v.id == (Database.maxBySemver w ws).id)
                  rw [if_neg hid, hid0]
                  rw [Bool.eq_false_iff]
                  intro hc
                  obtain ⟨hvp, hvs⟩ := isLatestOf_eq_true.mp hc
                  have := hallpub v hv hvp
                  rw [this] at hvs
                  exact Status.noConfusion hvs
              rw [hcnt]
              have : (db.versions.filter (fun v => !(v.id == target.id))).countP
                  (fun v => v.id == (Database.maxBySemver w ws).id) =
                  ((db.versions.filter (fun v => !(v.id == target.id))).map
                    VersionRow.id).countP (fun i => i == (Database.maxBySemver w ws).id) := by
                rw [List.countP_map]
                rfl
              rw [this, ← List.count_eq_countP]
              apply List.count_eq_one_of_mem hremids
              exact List.mem_map.mpr ⟨_, hm_rem, rfl⟩
            · have hcnt : (db.versions.filter (fun v => !(v.id == target.id))).countP
                  ((isLatestOf q) ∘ (fun v => if v.id == (Database.maxBySemver w ws).id
                    then { v with status := Status.latest } else v)) =
                  (db.versions.filter (fun v => !(v.id == target.id))).countP
                    (isLatestOf q) := by
                apply countP_congr_mem
                intro v hv
                by_cases hid : (v.id == (Database.maxBySemver w ws).id) = true
                · have hveq : v = Database.maxBySemver w ws :=
                    map_nodup_inj hremids v hv _ hm_rem (beq_iff_eq.mp hid)
                  show isLatestOf q (if (v.id == (Database.maxBySemver w ws).id) = true
                      then { v with status := Status.latest } else v) = isLatestOf q v
                  rw [if_pos hid]
                  have h1 : isLatestOf q { v with status := Status.latest } = false := by
                    rw [Bool.eq_false_iff]
                    intro hc
                    apply hqp
                    have := (isLatestOf_eq_true.mp hc).1
                    rw [show ({ v with status := Status.latest } :
                      VersionRow).package = v.package from rfl] at this
                    rw [← this, hveq, hm_p]
                  have h2 : isLatestOf q v = false := by
                    rw [Bool.eq_false_iff]
                    intro hc
                    apply hqp
                    have := (isLatestOf_eq_true.mp hc).1
                    rw [← this, hveq, hm_p]
                  rw [h1, h2]
                · show isLatestOf q (if (v.id == (Database.maxBySemver w ws).id) = true
                      then { v with status := Status.latest } else v) = isLatestOf q v
                  rw [if_neg hid]
              rw [hcnt]
              have hqt : isLatestOf q target = false := by
                rw [Bool.eq_false_iff]
                intro hc
                have h1 := (isLatestOf_eq_true.mp hc).1
                exact hqp (h1.symm.trans htp)
              rw [countP_filter_ne_id hinv.idsNodup htmem hqt]
              apply hinv.latestUnique
              have hver : (db.versions.filter (fun v => !(v.id == target.id))).countP
                  ((isVerOf q) ∘ (fun v => if v.id == (Database.maxBySemver w ws).id
                    then { v with status := Status.latest } else v)) =
                  (db.versions.filter (fun v => !(v.id == target.id))).countP
                    (isVerOf q) := by
                apply countP_congr_mem
                intro v hv
                show isVerOf q (if (v.id == (Database.maxBySemver w ws).id) = true
                    then { v with status := Status.latest } else v) = isVerOf q v
                split <;> rfl
              rw [hver] at hq
              have hq2 : (db.versions.filter
                  (fun v => !(v.id == target.id))).countP (isVerOf q) ≠ 0 := hq
              intro h0
              have hle := countP_filter_le db.versions target (isVerOf q)
              omega

/-! ### Operation sequences -/

/-- The three version-lifecycle operations of claim C1. -/
inductive DbOp where
  | insertPkg (pack : Database.NewPack)
  | insertVer (desc : Database.VerDesc)
  | removeVer (name semver : String)
deriving DecidableEq

/-- One successful step: `some` of the new store when the operation reports
success, `none` when it fails (in which case it left the store unchanged). -/
def stepOp (db : Db) : DbOp → Option Db
  | .insertPkg pack =>
    match Database.insertNewPackage db pack with
    | (.ok _, db2) => some db2
    | (.err _ _, _) => none
  | .insertVer desc =>
    match Database.insertNewPackageVersion db desc with
    | (.ok _, db2) => some db2
    | (.err _ _, _) => none
  | .removeVer name semver =>
    match Database.removePackageVersion db name semver with
    | (.ok _, db2) => some db2
    | (.err _ _, _) => none

/-- Run a sequence of operations, succeeding only if every step succeeds. -/
def runOps : Db → List DbOp → Option Db
  | db, [] => some db
  | db, op :: rest =>
    match stepOp db op with
    | some db2 => runOps db2 rest
    | none => none

theorem stepOp_inv {db db2 : Db} {op : DbOp} (hinv : DbInv db)
    (h : stepOp db op = some db2) : DbInv db2 := by
  cases op with
  | insertPkg pack =>
    have h2 := dbInv_insertNewPackage db pack hinv
    simp only [stepOp] at h
    cases hcall : Database.insertNewPackage db pack with
    | mk r dbr =>
      rw [hcall] at h h2
      cases r with
      | ok c =>
        obtain rfl : dbr = db2 := Option.some.inj h
        exact h2
      | err s m => exact Option.noConfusion h
  | insertVer desc =>
    have h2 := dbInv_insertNewPackageVersion db desc hinv
    simp only [stepOp] at h
    cases hcall : Database.insertNewPackageVersion db desc with
    | mk r dbr =>
      rw [hcall] at h h2
      cases r with
      | ok c =>
        obtain rfl : dbr = db2 := Option.some.inj h
        exact h2
      | err s m => exact Option.noConfusion h
  | removeVer name semver =>
    have h2 := dbInv_removePackageVersion db name semver hinv
    simp only [stepOp] at h
    cases hcall : Database.removePackageVersion db name semver with
    | mk r dbr =>
      rw [hcall] at h h2
      cases r with
      | ok c =>
        obtain rfl : dbr = db2 := Option.some.inj h
        exact h2
      | err s m => exact Option.noConfusion h

theorem runOps_inv {ops : List DbOp} {db db2 : Db} (hinv : DbInv db)
    (h : runOps db ops = some db2) : DbInv db2 := by
  induction ops generalizing db with
  | nil =>
    unfold runOps at h
    obtain rfl : db = db2 := Option.some.inj h
    exact hinv
  | cons op rest ih =>
    unfold runOps at h
    cases hs : stepOp db op with
    | none => rw [hs] at h; exact Option.noConfusion h
    | some dbm =>
      rw [hs] at h
      exact ih (stepOp_inv hinv hs) h

/-- Claim C1: for every package pointer that has at least one version, after
every successful sequence of `insertNewPackage`, `insertNewPackageVersion`
and `removePackageVersion` starting from the empty store, exactly one
version row of that pointer has status `latest`, and every other version
row of that pointer has status `published`. -/
theorem C1_exactly_one_latest (ops : List DbOp) (db2 : Db)
    (hrun : runOps emptyDb ops = some db2) (p : Nat)
    (hsome : db2.versions.countP (isVerOf p) ≠ 0) :
    db2.versions.countP (isLatestOf p) = 1 ∧
      ∀ v ∈ db2.versions, v.package = p → v.status ≠ Status.latest →
        v.status = Status.published := by
  have hinv : DbInv db2 := runOps_inv dbInv_empty hrun
  refine ⟨hinv.latestUnique p hsome, ?_⟩
  intro v _ _ hne
  cases hv : v.status with
  | latest => exact absurd hv hne
  | published => rfl

/-- A concrete package creation input. -/
def packA : Database.NewPack :=
  { name := "package-a", repository := "repo", readme := "readme",
    creation_method := "user made", packageType := "package",
    metadata := "meta", version := "1.0.0", license := "MIT" }

/-- The store after publishing `packA` into the empty store. -/
def dbA : Db := (Database.insertNewPackage emptyDb packA).2

/-- Claim C1, witness: running the one-element sequence that publishes
`packA` yields a store in which pointer 0 has exactly one `latest` row. -/
theorem C1_exactly_one_latest_witness :
    dbA.versions.countP (isLatestOf 0) = 1 :=
  (C1_exactly_one_latest [DbOp.insertPkg packA] dbA rfl 0 (by decide)).1

/-! ### Claims C2, C3, C4 -/

/-- Claim C2: for an existing package with a current `latest` row,
`insertNewPackageVersion` compares the new version against that row by
semantic-version ordering: when strictly higher, the new row is stored
`latest` and the previous `latest` row is demoted to `published`;
otherwise the new row is stored `published` and the old `latest` row is
untouched; the result is the confirmation message naming the package and
the version, and afterwards the pointer still has exactly one `latest`
row. -/
theorem C2_insert_version_semver_ordering (db : Db) (desc : Database.VerDesc)
    (p : Nat) (lat : VersionRow) (hinv : DbInv db)
    (hf : Database.findPointerByName db desc.name = some p)
    (hl : Database.findLatestRow db p = some lat) :
    (Database.insertNewPackageVersion db desc).1 =
      DbResult.ok ("Successfully added new version: " ++ desc.name ++ "@" ++
        desc.version) ∧
    (∃ nv ∈ (Database.insertNewPackageVersion db desc).2.versions,
      nv.package = p ∧ nv.semver = desc.version ∧
      nv.status = (if semverGtB desc.version lat.semver = true then Status.latest
        else Status.published)) ∧
    (semverGtB desc.version lat.semver = true →
      ∀ v ∈ (Database.insertNewPackageVersion db desc).2.versions,
        v.id = lat.id → v.status = Status.published) ∧
    (semverGtB desc.version lat.semver = false →
      lat ∈ (Database.insertNewPackageVersion db desc).2.versions) ∧
    (Database.insertNewPackageVersion db desc).2.versions.countP (isLatestOf p) = 1 := by
  have hl' : db.versions.find? (fun v => v.package == p && v.status.isLatest) =
      some lat := hl
  have hlatmem : lat ∈ db.versions := List.mem_of_find?_eq_some hl'
  have hlatpred : (lat.package == p) = true ∧ lat.status.isLatest = true := by
    have h2 := List.find?_some hl'
    rw [← Bool.and_eq_true]
    exact h2
  cases hgt : semverGtB desc.version lat.semver with
  | true =>
    rw [insertNewPackageVersion_eq_of_gt hf hl hgt]
    refine ⟨rfl, ?_, ?_, ?_, ?_⟩
    · exact ⟨_, List.mem_append.mpr (Or.inr (List.mem_singleton.mpr rfl)),
        rfl, rfl, rfl⟩
    · intro _ v hv hid
      rcases List.mem_append.mp hv with h | h
      · unfold Database.demoteLatestFor at h
        obtain ⟨w, hw, rfl⟩ := List.mem_map.mp h
        have hwid : (if (w.package == p && w.status.isLatest) = true then
            { w with status := Status.published } else w).id = w.id := by
          split <;> rfl
        rw [hwid] at hid
        have hweq : w = lat := map_nodup_inj hinv.idsNodup w hw lat hlatmem hid
        have hcond : (w.package == p && w.status.isLatest) = true := by
          rw [hweq, Bool.and_eq_true]
          exact hlatpred
        rw [if_pos hcond]
      · rw [List.mem_singleton] at h
        rw [h] at hid
        have hid2 : db.nextVersionId = lat.id := hid
        have := hinv.idsLt lat hlatmem
        omega
    · intro hcon
      exact Bool.noConfusion hcon
    · rw [List.countP_append, countP_demote_latest_self, countP_singleton]
      have hone : isLatestOf p ({ id := db.nextVersionId, package := p,
                                  status := Status.latest, semver := desc.version,
                                  license := desc.license, meta := desc.meta } :
          VersionRow) = true := by
        rw [isLatestOf_eq_true]
        exact ⟨rfl, rfl⟩
      rw [hone, if_pos rfl]
  | false =>
    rw [insertNewPackageVersion_eq_of_le hf hl hgt]
    refine ⟨rfl, ?_, ?_, ?_, ?_⟩
    · exact ⟨_, List.mem_append.mpr (Or.inr (List.mem_singleton.mpr rfl)),
        rfl, rfl, rfl⟩
    · intro hcon
      exact Bool.noConfusion hcon
    · intro _
      exact List.mem_append.mpr (Or.inl hlatmem)
    · rw [List.countP_append, countP_singleton]
      have hl0 : isLatestOf p ({ id := db.nextVersionId, package := p,
                                 status := Status.published, semver := desc.version,
                                 license := desc.license, meta := desc.meta } :
          VersionRow) = false := by
        rw [Bool.eq_false_iff]
        intro hc
        exact Status.noConfusion (isLatestOf_eq_true.mp hc).2
      rw [hl0, if_neg (by rw [Bool.false_eq_true]; exact not_false), Nat.add_zero]
      exact hinv.latestUnique p (countP_ne_zero_of_mem hlatmem hlatpred.1)

/-- The well-formedness of the store that holds `packA`. -/
theorem dbA_inv : DbInv dbA :=
  dbInv_insertNewPackage emptyDb packA dbInv_empty

/-- The unique version row of `dbA`. -/
def verA : VersionRow :=
  { id := 0, package := 0, status := Status.latest, semver := "1.0.0",
    license := "MIT", meta := "meta" }

/-- The version-2 descriptor used by the witnesses. -/
def descB : Database.VerDesc :=
  { name := "package-a", version := "2.0.0", license := "MIT", meta := "m2" }

/-- Claim C2, witness: adding version 2.0.0 on top of 1.0.0 returns the
expected confirmation message. -/
theorem C2_insert_version_semver_ordering_witness :
    (Database.insertNewPackageVersion dbA descB).1 =
      DbResult.ok ("Successfully added new version: " ++ descB.name ++ "@" ++
        descB.version) :=
  (C2_insert_version_semver_ordering dbA descB 0 verA dbA_inv (by decide) (by decide)).1

/-- Claim C3: when a package has exactly one remaining version,
`removePackageVersion` targeting that version is rejected with a
Conflict-style result carrying the message the integration test expects,
and the whole store — in particular the package row and its remaining
version — is unchanged. -/
theorem C3_remove_only_version_conflict (db : Db) (name semver : String)
    (p : Nat) (v : VersionRow)
    (hf : Database.findPointerByName db name = some p)
    (hvs : Database.versionsFor db p = [v])
    (hsem : v.semver = semver) :
    Database.removePackageVersion db name semver =
      (DbResult.err "Conflict" ("It\x27s not possible to leave the " ++ name ++
        " without at least one published version"), db) := by
  have hfind : (Database.versionsFor db p).find? (fun w => w.semver == semver) =
      some v := by
    rw [hvs]
    exact List.find?_cons_of_pos _ (beq_iff_eq.mpr hsem)
  have hlen : (Database.versionsFor db p).length ≤ 1 := by
    rw [hvs]
    exact Nat.le_refl 1
  exact removePackageVersion_eq_conflict hf hfind hlen

/-- Claim C3, witness: deleting the only version of the concrete package
is rejected and leaves the store untouched. -/
theorem C3_remove_only_version_conflict_witness :
    Database.removePackageVersion dbA "package-a" "1.0.0" =
      (DbResult.err "Conflict" ("It\x27s not possible to leave the " ++ "package-a" ++
        " without at least one published version"), dbA) :=
  C3_remove_only_version_conflict dbA "package-a" "1.0.0" 0 verA
    (by decide) (by decide) rfl

/-- Claim C4: for a package with at least two versions, removing the
current `latest` version deletes that row (no surviving row carries its
key), promotes a remaining row of the pointer that is maximal in the
semantic-version ordering to `latest`, returns the message naming that new
latest version, and leaves the pointer with exactly one `latest` row. -/
theorem C4_remove_latest_promotes_max (db : Db) (name semver : String)
    (p : Nat) (target : VersionRow) (hinv : DbInv db)
    (hf : Database.findPointerByName db name = some p)
    (hfind : (Database.versionsFor db p).find? (fun v => v.semver == semver) =
      some target)
    (hlen : ¬(Database.versionsFor db p).length ≤ 1)
    (hst : target.status = Status.latest) :
    ∃ m : VersionRow,
      m ∈ (Database.removePackageVersion db name semver).2.versions ∧
      m.package = p ∧ m.status = Status.latest ∧
      (∀ v ∈ (Database.removePackageVersion db name semver).2.versions,
        v.id ≠ target.id) ∧
      (∀ v ∈ (Database.removePackageVersion db name semver).2.versions,
        v.package = p → semverGtB v.semver m.semver = false) ∧
      (Database.removePackageVersion db name semver).1 =
        DbResult.ok ("Removed " ++ semver ++ " of " ++ name ++ " and " ++ m.semver ++
          " is the new latest version.") ∧
      (Database.removePackageVersion db name semver).2.versions.countP
        (isLatestOf p) = 1 := by
  have htmem0 : target ∈ Database.versionsFor db p := List.mem_of_find?_eq_some hfind
  have htmem : target ∈ db.versions := (List.mem_filter.mp htmem0).1
  have htp : target.package = p := beq_iff_eq.mp (List.mem_filter.mp htmem0).2
  have hremids :
      ((db.versions.filter (fun v => !(v.id == target.id))).map VersionRow.id).Nodup :=
    List.Nodup.sublist ((List.filter_sublist _).map _) hinv.idsNodup
  have hvs_nodup : ((Database.versionsFor db p).map VersionRow.id).Nodup :=
    List.Nodup.sublist ((List.filter_sublist _).map _) hinv.idsNodup
  obtain ⟨s, u, hsplit, hsne, hune⟩ := split_unique_key hvs_nodup htmem0
  have hfilter_vs :
      (Database.versionsFor db p).filter (fun v => !(v.id == target.id)) = s ++ u := by
    rw [hsplit, List.filter_append, List.filter_cons]
    have ht_self : (!(target.id == target.id)) = false := by simp
    rw [ht_self]
    simp only [Bool.false_eq_true, if_false]
    have hseq : s.filter (fun v => !(v.id == target.id)) = s := by
      apply List.filter_eq_self.mpr
      intro w hw
      rw [Bool.not_eq_eq_eq_not]
      show (w.id == target.id) = false
      rw [beq_eq_false_iff_ne]
      exact hsne w hw
    have hueq : u.filter (fun v => !(v.id == target.id)) = u := by
      apply List.filter_eq_self.mpr
      intro w hw
      rw [Bool.not_eq_eq_eq_not]
      show (w.id == target.id) = false
      rw [beq_eq_false_iff_ne]
      exact hune w hw
    rw [hseq, hueq]
  have hcomm :
      (db.versions.filter (fun v => !(v.id == target.id))).filter
        (fun v => v.package == p) =
      (Database.versionsFor db p).filter (fun v => !(v.id == target.id)) := by
    unfold Database.versionsFor
    rw [List.filter_filter, List.filter_filter]
    apply List.filter_congr
    intro v _
    rw [Bool.and_comm]
  have hlen2 : 2 ≤ (Database.versionsFor db p).length := Nat.not_le.mp hlen
  obtain ⟨w, ws, hwws⟩ : ∃ w ws, s ++ u = w :: ws := by
    cases hc : s ++ u with
    | nil =>
      exfalso
      rw [hsplit, List.length_append, List.length_cons] at hlen2
      have hc2 : s.length + u.length = 0 := by
        have := congrArg List.length hc
        rw [List.length_append] at this
        exact this
      omega
    | cons w2 ws2 => exact ⟨w2, ws2, rfl⟩
  have hrem :
      (db.versions.filter (fun v => !(v.id == target.id))).filter
        (fun v => v.package == p) = w :: ws := by
    rw [hcomm, hfilter_vs, hwws]
  have hinv2 : DbInv (Database.removePackageVersion db name semver).2 :=
    dbInv_removePackageVersion db name semver hinv
  rw [removePackageVersion_eq_latest hf hfind hlen hst hrem] at hinv2 ⊢
  have hm_mem_cons : Database.maxBySemver w ws ∈ w :: ws := maxBySemver_mem w ws
  rw [← hrem] at hm_mem_cons
  have hm_rem : Database.maxBySemver w ws ∈
      db.versions.filter (fun v => !(v.id == target.id)) :=
    (List.mem_filter.mp hm_mem_cons).1
  have hm_p : (Database.maxBySemver w ws).package = p :=
    beq_iff_eq.mp (List.mem_filter.mp hm_mem_cons).2
  have hm_self : ((Database.maxBySemver w ws).id ==
      (Database.maxBySemver w ws).id) = true := beq_iff_eq.mpr rfl
  refine ⟨{ Database.maxBySemver w ws with status := Status.latest }, ?_, hm_p, rfl,
    ?_, ?_, rfl, ?_⟩
  · show { Database.maxBySemver w ws with status := Status.latest } ∈
      (db.versions.filter (fun v => !(v.id == target.id))).map
        (fun v => if v.id == (Database.maxBySemver w ws).id then
          { v with status := Status.latest } else v)
    apply List.mem_map.mpr
    refine ⟨Database.maxBySemver w ws, hm_rem, ?_⟩
    rw [if_pos hm_self]
  · intro v hv
    obtain ⟨v2, hv2, hid, _⟩ := promote_mem hv
    rw [hid]
    have hpred := (List.mem_filter.mp hv2).2
    rw [Bool.not_eq_eq_eq_not] at hpred
    show v2.id ≠ target.id
    rw [← beq_eq_false_iff_ne]
    exact hpred
  · intro v hv hvp
    obtain ⟨v2, hv2, hid, hpkg⟩ := promote_mem hv
    have hsem : v.semver = v2.semver := by
      obtain ⟨v3, hv3, rfl⟩ := List.mem_map.mp hv
      show (if (v3.id == (Database.maxBySemver w ws).id) = true then
        { v3 with status := Status.latest } else v3).semver = v2.semver
      have hid3 : (if (v3.id == (Database.maxBySemver w ws).id) = true then
          { v3 with status := Status.latest } else v3).id = v3.id := by
        split <;> rfl
      have hv3eq : v3 = v2 := by
        apply map_nodup_inj hremids v3 hv3 v2 hv2
        rw [← hid3, hid]
      rw [hv3eq]
      split <;> rfl
    have hv2p : v2.package = p := by
      rw [← hpkg]
      exact hvp
    have hv2cons : v2 ∈ w :: ws := by
      rw [← hrem]
      exact List.mem_filter.mpr ⟨hv2, beq_iff_eq.mpr hv2p⟩
    rw [hsem]
    show semverGtB v2.semver
      ({ Database.maxBySemver w ws with status := Status.latest } : VersionRow).semver =
        false
    have hms : ({ Database.maxBySemver w ws with status := Status.latest } :
        VersionRow).semver = (Database.maxBySemver w ws).semver := rfl
    rw [hms]
    exact maxBySemver_not_gt w ws v2 hv2cons
  · have hmmem : ({ Database.maxBySemver w ws with status := Status.latest } :
        VersionRow) ∈
        (db.versions.filter (fun v => !(v.id == target.id))).map
          (fun v => if v.id == (Database.maxBySemver w ws).id then
            { v with status := Status.latest } else v) := by
      apply List.mem_map.mpr
      refine ⟨Database.maxBySemver w ws, hm_rem, ?_⟩
      rw [if_pos hm_self]
    apply hinv2.latestUnique
    exact countP_ne_zero_of_mem hmmem (isVerOf_eq_true.mpr hm_p)

/-- The store with versions 1.0.0 (published) and 2.0.0 (latest). -/
def dbA2 : Db := (Database.insertNewPackageVersion dbA descB).2

/-- The well-formedness of the two-version store. -/
theorem dbA2_inv : DbInv dbA2 :=
  dbInv_insertNewPackageVersion dbA descB dbA_inv

/-- The 2.0.0 row of `dbA2`. -/
def verB : VersionRow :=
  { id := 1, package := 0, status := Status.latest, semver := "2.0.0",
    license := "MIT", meta := "m2" }

/-- Claim C4, witness: removing the latest version 2.0.0 from the
two-version store leaves pointer 0 with exactly one `latest` row. -/
theorem C4_remove_latest_promotes_max_witness :
    (Database.removePackageVersion dbA2 "package-a" "2.0.0").2.versions.countP
      (isLatestOf 0) = 1 := by
  obtain ⟨m, _, _, _, _, _, _, hcount⟩ :=
    C4_remove_latest_promotes_max dbA2 "package-a" "2.0.0" 0 verB dbA2_inv
      (by decide) (by decide) (by decide) rfl
  exact hcount

/-! ### Claim C5: renames keep both names readable -/

theorem insertNewPackageName_eq_ok {db : Db} {newName currentName : String} {p : Nat}
    (hold : Database.findPointerByName db currentName = some p)
    (hnew : Database.findPointerByName db newName = none) :
    Database.insertNewPackageName db newName currentName =
      (DbResult.ok ("Successfully inserted " ++ newName ++ "."),
       { db with
          names := db.names ++ [{ name := jsToLowerCase newName, pointer := p }],
          packages := db.packages.map (fun r =>
            if r.pointer == p then
              { r with name := jsToLowerCase newName, updated := db.time }
            else r),
          time := db.time + 1 }) := by
  unfold Database.insertNewPackageName
  rw [hold]
  simp only [hnew]

theorem findPointerByName_names_append {db db2 : Db} {extra : List NameRow}
    {nm : String} {p : Nat}
    (h2 : db2.names = db.names ++ extra)
    (hp : Database.findPointerByName db nm = some p) :
    Database.findPointerByName db2 nm = some p := by
  unfold Database.findPointerByName at hp ⊢
  rw [h2, List.find?_append]
  cases hfo : db.names.find? (fun r => r.name == jsToLowerCase nm) with
  | none =>
    rw [hfo] at hp
    exact Option.noConfusion hp
  | some r0 =>
    rw [hfo] at hp
    exact hp

theorem findPointerByName_appended_new {db db2 : Db} {nm : String} {p : Nat}
    (h2 : db2.names = db.names ++ [{ name := jsToLowerCase nm, pointer := p }])
    (hnone : Database.findPointerByName db nm = none) :
    Database.findPointerByName db2 nm = some p := by
  unfold Database.findPointerByName at hnone ⊢
  rw [h2, List.find?_append]
  cases hfo : db.names.find? (fun r => r.name == jsToLowerCase nm) with
  | some r0 =>
    rw [hfo] at hnone
    exact Option.noConfusion hnone
  | none =>
    have hpred : ((fun r : NameRow => r.name == jsToLowerCase nm)
        { name := jsToLowerCase nm, pointer := p }) = true := beq_iff_eq.mpr rfl
    have hfind : List.find? (fun r : NameRow => r.name == jsToLowerCase nm)
        ([{ name := jsToLowerCase nm, pointer := p }] : List NameRow) =
          some { name := jsToLowerCase nm, pointer := p } :=
      List.find?_cons_of_pos _ hpred
    simp only [Option.none_or]
    rw [hfind]

theorem findPackageByPointer_rename {db db2 : Db} {p : Nat} {newName : String}
    {t : Nat} {row : PackageRow}
    (h2 : db2.packages = db.packages.map (fun r =>
      if r.pointer == p then
        { r with name := jsToLowerCase newName, updated := t }
      else r))
    (hrow : Database.findPackageByPointer db p = some row) :
    Database.findPackageByPointer db2 p =
      some { row with name := jsToLowerCase newName, updated := t } := by
  unfold Database.findPackageByPointer at hrow ⊢
  rw [h2, List.find?_map]
  have hcomp : ((fun r : PackageRow => r.pointer == p) ∘ (fun r =>
      if r.pointer == p then
        { r with name := jsToLowerCase newName, updated := t }
      else r)) = (fun r : PackageRow => r.pointer == p) := by
    funext r
    simp only [Function.comp_apply]
    split <;> rfl
  rw [hcomp, hrow]
  have hpt := List.find?_some hrow
  show some (if (row.pointer == p) = true then
    ({ row with name := jsToLowerCase newName, updated := t } : PackageRow)
    else row) = _
  rw [if_pos hpt]

theorem getPackageByName_eq {db2 : Db} {nm : String} {p : Nat} {pr : PackageRow}
    (hres : Database.findPointerByName db2 nm = some p)
    (hrow : Database.findPackageByPointer db2 p = some pr) :
    Database.getPackageByName db2 nm =
      DbResult.ok { pack := pr, versions := Database.versionsFor db2 p } := by
  unfold Database.getPackageByName
  simp only [hres, hrow]

/-- Claim C5: after a successful rename from `oldName` to `newName`,
`getPackageByName` succeeds under both the old and the new name, both
reads return the same package content, and that content carries the new
name.  (Names are stored lower-cased; the hypothesis `hlower` records
that the new name arrives already normalized, as the query layer
guarantees.) -/
theorem C5_rename_preserves_reads (db : Db) (newName oldName : String)
    (p : Nat) (row : PackageRow)
    (hold : Database.findPointerByName db oldName = some p)
    (hnew : Database.findPointerByName db newName = none)
    (hrow : Database.findPackageByPointer db p = some row)
    (hlower : jsToLowerCase newName = newName) :
    (Database.insertNewPackageName db newName oldName).1 =
      DbResult.ok ("Successfully inserted " ++ newName ++ ".") ∧
    ∃ c : Database.PackView,
      Database.getPackageByName
        (Database.insertNewPackageName db newName oldName).2 oldName =
          DbResult.ok c ∧
      Database.getPackageByName
        (Database.insertNewPackageName db newName oldName).2 newName =
          DbResult.ok c ∧
      c.pack.name = newName := by
  rw [insertNewPackageName_eq_ok hold hnew]
  refine ⟨rfl, ?_⟩
  have hres_old : Database.findPointerByName
      { db with
        names := db.names ++ [{ name := jsToLowerCase newName, pointer := p }],
        packages := db.packages.map (fun r =>
          if r.pointer == p then
            { r with name := jsToLowerCase newName, updated := db.time }
          else r),
        time := db.time + 1 } oldName = some p :=
    findPointerByName_names_append rfl hold
  have hres_new : Database.findPointerByName
      { db with
        names := db.names ++ [{ name := jsToLowerCase newName, pointer := p }],
        packages := db.packages.map (fun r =>
          if r.pointer == p then
            { r with name := jsToLowerCase newName, updated := db.time }
          else r),
        time := db.time + 1 } newName = some p :=
    findPointerByName_appended_new rfl hnew
  have hrow2 : Database.findPackageByPointer
      { db with
        names := db.names ++ [{ name := jsToLowerCase newName, pointer := p }],
        packages := db.packages.map (fun r =>
          if r.pointer == p then
            { r with name := jsToLowerCase newName, updated := db.time }
          else r),
        time := db.time + 1 } p =
      some { row with name := jsToLowerCase newName, updated := db.time } :=
    findPackageByPointer_rename rfl hrow
  refine ⟨_, getPackageByName_eq hres_old hrow2,
    getPackageByName_eq hres_new hrow2, ?_⟩
  show ({ row with name := jsToLowerCase newName, updated := db.time } :
    PackageRow).name = newName
  exact hlower

/-- Claim C5, witness: renaming the concrete package to `package-b` makes
both reads agree and return the new name. -/
theorem C5_rename_preserves_reads_witness :
    Database.getPackageByName
      (Database.insertNewPackageName dbA "package-b" "package-a").2 "package-a" =
    Database.getPackageByName
      (Database.insertNewPackageName dbA "package-b" "package-a").2 "package-b" := by
  obtain ⟨_, c, h1, h2, _⟩ :=
    C5_rename_preserves_reads dbA "package-b" "package-a" 0
      { pointer := 0, name := "package-a", created := 0, updated := 0,
        creation_method := "user made", downloads := 0, stargazers_count := 0,
        original_stargazers := 0, package_type := "package", data := "meta" }
      (by decide) (by decide) (by decide) (by decide)
  rw [h1, h2]

/-! ### Claim C6: rename with an unresolvable current name -/

/-- Claim C6, counterexample: the claim says a rename whose `currentName`
does not resolve fails with a NotFound result; the repository test
("Should return Server Error for package that doesn't exist",
`insertNewPackageName` suite) pins the failure short string to
`Server Error` instead, and the model follows the code. -/
theorem C6_rename_not_found_counterexample :
    (Database.insertNewPackageName emptyDb "notARepo" "notARepo-Reborn").1.isNotFound
        = false ∧
      (Database.insertNewPackageName emptyDb "notARepo" "notARepo-Reborn").1 =
        DbResult.err "Server Error"
          ("Unable to find the package " ++ "notARepo-Reborn") := by
  exact ⟨by decide, by decide⟩

/-- Claim C6 (amended): a rename request whose `currentName` does not
resolve to any package fails, with a `Server Error` result (not NotFound),
and leaves the store unchanged. -/
theorem C6_rename_unresolvable_is_server_error (db : Db) (newName currentName : String)
    (h : Database.findPointerByName db currentName = none) :
    Database.insertNewPackageName db newName currentName =
      (DbResult.err "Server Error" ("Unable to find the package " ++ currentName),
        db) := by
  unfold Database.insertNewPackageName
  rw [h]

/-- Claim C6, witness of the amended theorem on the empty store. -/
theorem C6_rename_unresolvable_is_server_error_witness :
    Database.insertNewPackageName emptyDb "notARepo" "notARepo-Reborn" =
      (DbResult.err "Server Error"
        ("Unable to find the package " ++ "notARepo-Reborn"), emptyDb) :=
  C6_rename_unresolvable_is_server_error emptyDb "notARepo" "notARepo-Reborn" rfl

/-! ### Claims C7 and C8: stars -/

/-- The number of star edges of a pointer. -/
def starCountFor (db : Db) (p : Nat) : Nat :=
  db.stars.countP (fun s => s.package == p)

/-- The cached star counter of a pointer agrees with the number of star
edges of that pointer. -/
def counterOk (db : Db) (p : Nat) : Prop :=
  ∀ r ∈ db.packages, r.pointer = p →
    r.stargazers_count = Int.ofNat (starCountFor db p)

instance (db : Db) (p : Nat) : Decidable (counterOk db p) := by
  unfold counterOk
  infer_instance

theorem decStarRow_incStarRow (p : Nat) (r : PackageRow) :
    Database.decStarRow p (Database.incStarRow p r) = r := by
  unfold Database.incStarRow Database.decStarRow
  by_cases hc : (r.pointer == p) = true
  · simp [hc]
  · simp [hc]

theorem map_dec_inc (p : Nat) (l : List PackageRow) :
    (l.map (Database.incStarRow p)).map (Database.decStarRow p) = l := by
  rw [List.map_map]
  have : (Database.decStarRow p ∘ Database.incStarRow p) = id := by
    funext r
    simp only [Function.comp_apply, decStarRow_incStarRow, id]
  rw [this, List.map_id]

theorem incStar_eq {db : Db} {name : String} {p : Nat} {row : PackageRow}
    (hp : Database.findPointerByName db name = some p)
    (hrow : Database.findPackageByPointer db p = some row) :
    Database.updatePackageIncrementStarByName db name =
      (DbResult.ok (Database.incStarRow p row),
       { db with packages := db.packages.map (Database.incStarRow p) }) := by
  unfold Database.updatePackageIncrementStarByName
  rw [hp]
  simp only [hrow]

theorem decStar_eq {db : Db} {name : String} {p : Nat} {row : PackageRow}
    (hp : Database.findPointerByName db name = some p)
    (hrow : Database.findPackageByPointer db p = some row) :
    Database.updatePackageDecrementStarByName db name =
      (DbResult.ok (Database.decStarRow p row),
       { db with packages := db.packages.map (Database.decStarRow p) }) := by
  unfold Database.updatePackageDecrementStarByName
  rw [hp]
  simp only [hrow]

theorem updateStars_eq_insert {db : Db} {u : UserRow} {name : String} {p : Nat}
    (hp : Database.findPointerByName db name = some p)
    (hedge : Database.hasStar db p u.id = false) :
    Database.updateStars db u name =
      (DbResult.ok ("Successfully Stared " ++ toString p ++ " with " ++ toString u.id),
       { db with stars := db.stars ++ [{ package := p, userId := u.id }],
                 packages := db.packages.map (Database.incStarRow p) }) := by
  unfold Database.updateStars
  rw [hp]
  simp only [hedge, Bool.false_eq_true, if_false]

theorem updateDeleteStar_eq {db : Db} {u : UserRow} {name : String} {p : Nat}
    (hp : Database.findPointerByName db name = some p)
    (hedge : Database.hasStar db p u.id = true) :
    Database.updateDeleteStar db u name =
      (DbResult.ok ("Successfully Unstarred " ++ toString p ++ " with " ++
          toString u.id),
       { db with
          stars := db.stars.filter (fun s => !(s.package == p && s.userId == u.id)),
          packages := db.packages.map (Database.decStarRow p) }) := by
  unfold Database.updateDeleteStar
  rw [hp]
  simp only [hedge, if_true]

theorem incStarRow_pointer (p : Nat) (r : PackageRow) :
    (Database.incStarRow p r).pointer = r.pointer := by
  unfold Database.incStarRow
  split <;> rfl

theorem findPackageByPointer_map_pointer {db db2 : Db} {p : Nat}
    {f : PackageRow → PackageRow} {row : PackageRow}
    (hf : ∀ r, (f r).pointer = r.pointer)
    (h2 : db2.packages = db.packages.map f)
    (hrow : Database.findPackageByPointer db p = some row) :
    Database.findPackageByPointer db2 p = some (f row) := by
  unfold Database.findPackageByPointer at hrow ⊢
  rw [h2, List.find?_map]
  have hcomp : ((fun r : PackageRow => r.pointer == p) ∘ f) =
      (fun r : PackageRow => r.pointer == p) := by
    funext r
    simp only [Function.comp_apply]
    rw [hf r]
  rw [hcomp, hrow]
  rfl

/-- Claim C7, counterexample: the claim asserts that the cached
`stargazers_count` equals the number of star edges after operations of
either path; after one counter-path star
(`updatePackageIncrementStarByName`) on a fresh package the counter is 1
while the package still has zero star edges, so the equality fails for
the counter path. -/
theorem C7_counter_path_diverges_from_edges :
    (Database.updatePackageIncrementStarByName dbA "package-a").2.packages.map
      PackageRow.stargazers_count = [1] ∧
    starCountFor (Database.updatePackageIncrementStarByName dbA "package-a").2 0 = 0 ∧
    ((1 : Int) ≠ Int.ofNat 0) := by
  exact ⟨by decide, by decide, by decide⟩

/-- Claim C7 (amended): starring then unstarring restores the store
exactly, on both the counter path
(`updatePackageIncrementStarByName` / `updatePackageDecrementStarByName`)
and the edge path (`updateStars` / `updateDeleteStar`); the counter path
touches no star edges (which is why it cannot maintain the
counter-equals-edges equality the original claim asserted for it); and
the edge path preserves the property that the cached counter of the
starred pointer equals its number of star edges. -/
theorem C7_star_unstar_round_trip (db : Db) (name : String) (u : UserRow)
    (p : Nat) (row : PackageRow)
    (hp : Database.findPointerByName db name = some p)
    (hrow : Database.findPackageByPointer db p = some row)
    (hedge : Database.hasStar db p u.id = false)
    (hok : counterOk db p) :
    (Database.updatePackageDecrementStarByName
      (Database.updatePackageIncrementStarByName db name).2 name).2 = db ∧
    (Database.updatePackageIncrementStarByName db name).2.stars = db.stars ∧
    (Database.updateDeleteStar (Database.updateStars db u name).2 u name).2 = db ∧
    counterOk (Database.updateStars db u name).2 p ∧
    counterOk (Database.updateDeleteStar
      (Database.updateStars db u name).2 u name).2 p := by
  have h1 : (Database.updatePackageDecrementStarByName
      (Database.updatePackageIncrementStarByName db name).2 name).2 = db := by
    rw [incStar_eq hp hrow]
    have hp1 : Database.findPointerByName
        { db with packages := db.packages.map (Database.incStarRow p) } name =
          some p := hp
    have hrow1 : Database.findPackageByPointer
        { db with packages := db.packages.map (Database.incStarRow p) } p =
          some (Database.incStarRow p row) :=
      findPackageByPointer_map_pointer (incStarRow_pointer p) rfl hrow
    rw [decStar_eq hp1 hrow1]
    show { db with packages :=
      (db.packages.map (Database.incStarRow p)).map (Database.decStarRow p) } = db
    rw [map_dec_inc]
  have hstars1 : (Database.updateStars db u name).2.stars =
      db.stars ++ [({ package := p, userId := u.id } : StarRow)] := by
    rw [updateStars_eq_insert hp hedge]
  have h3 : (Database.updateDeleteStar (Database.updateStars db u name).2 u name).2 =
      db := by
    rw [updateStars_eq_insert hp hedge]
    have hp1 : Database.findPointerByName
        { db with stars := db.stars ++ [({ package := p, userId := u.id } : StarRow)],
                  packages := db.packages.map (Database.incStarRow p) } name =
          some p := hp
    have hedge1 : Database.hasStar
        { db with stars := db.stars ++ [({ package := p, userId := u.id } : StarRow)],
                  packages := db.packages.map (Database.incStarRow p) } p u.id =
          true := by
      unfold Database.hasStar
      show (db.stars ++ [({ package := p, userId := u.id } : StarRow)]).any
        (fun s => s.package == p && s.userId == u.id) = true
      rw [List.any_append]
      have hsing : ([({ package := p, userId := u.id } : StarRow)].any
          (fun s => s.package == p && s.userId == u.id)) = true := by
        simp
      rw [hsing, Bool.or_true]
    rw [updateDeleteStar_eq hp1 hedge1]
    show { db with
      stars := (db.stars ++ [({ package := p, userId := u.id } : StarRow)]).filter
        (fun s => !(s.package == p && s.userId == u.id)),
      packages := (db.packages.map (Database.incStarRow p)).map
        (Database.decStarRow p) } = db
    have hkeep : db.stars.filter
        (fun s => !(s.package == p && s.userId == u.id)) = db.stars := by
      apply List.filter_eq_self.mpr
      intro s hs
      rw [Bool.not_eq_eq_eq_not]
      show (s.package == p && s.userId == u.id) = false
      have hall := List.any_eq_false.mp hedge s hs
      exact Bool.eq_false_iff.mpr hall
    have hdrop : ([({ package := p, userId := u.id } : StarRow)].filter
        (fun s => !(s.package == p && s.userId == u.id))) = [] := by
      simp
    rw [List.filter_append, hkeep, hdrop, List.append_nil, map_dec_inc]
  refine ⟨h1, by rw [incStar_eq hp hrow], h3, ?_, ?_⟩
  · -- edge path preserves counter-equals-edges
    rw [updateStars_eq_insert hp hedge]
    intro r hr hrp
    have hr2 : r ∈ db.packages.map (Database.incStarRow p) := hr
    obtain ⟨r0, hr0, rfl⟩ := List.mem_map.mp hr2
    have hcount : starCountFor
        { db with stars := db.stars ++ [({ package := p, userId := u.id } : StarRow)],
                  packages := db.packages.map (Database.incStarRow p) } p =
        starCountFor db p + 1 := by
      unfold starCountFor
      show (db.stars ++ [({ package := p, userId := u.id } : StarRow)]).countP
        (fun s => s.package == p) = db.stars.countP (fun s => s.package == p) + 1
      rw [List.countP_append, countP_singleton]
      have hpr : (({ package := p, userId := u.id } : StarRow).package == p) = true :=
        beq_iff_eq.mpr rfl
      rw [hpr, if_pos rfl]
    rw [hcount]
    by_cases hc : (r0.pointer == p) = true
    · have h0 := hok r0 hr0 (beq_iff_eq.mp hc)
      show (Database.incStarRow p r0).stargazers_count =
        Int.ofNat (starCountFor db p + 1)
      unfold Database.incStarRow
      rw [if_pos hc]
      show r0.stargazers_count + 1 = Int.ofNat (starCountFor db p + 1)
      rw [h0]
      rfl
    · exfalso
      rw [incStarRow_pointer] at hrp
      exact hc (beq_iff_eq.mpr hrp)
  · rw [h3]
    exact hok

/-- The package row of `dbA`. -/
def rowA : PackageRow :=
  { pointer := 0, name := "package-a", created := 0, updated := 0,
    creation_method := "user made", downloads := 0, stargazers_count := 0,
    original_stargazers := 0, package_type := "package", data := "meta" }

/-- A concrete user for the star witnesses. -/
def userA : UserRow :=
  { id := 7, username := "user-a", node_id := "node-a", avatar := "avatar-a" }

/-- Claim C7, witness: star and unstar on the concrete store restore it
exactly on the counter path. -/
theorem C7_star_unstar_round_trip_witness :
    (Database.updatePackageDecrementStarByName
      (Database.updatePackageIncrementStarByName dbA "package-a").2 "package-a").2 =
      dbA :=
  (C7_star_unstar_round_trip dbA "package-a" userA 0 rowA
    (by decide) (by decide) (by decide) (by decide)).1

/-! ### Claim C8: the star operations touch only the star counter -/

/-- Erase the star counter of a package row; two rows are equal after
masking exactly when they agree on every other field. -/
def maskCounter (r : PackageRow) : PackageRow :=
  { r with stargazers_count := 0 }

theorem map_mask_incStar (p : Nat) (l : List PackageRow) :
    (l.map (Database.incStarRow p)).map maskCounter = l.map maskCounter := by
  rw [List.map_map]
  apply List.map_congr_left
  intro r _
  show maskCounter (if (r.pointer == p) = true then
    { r with stargazers_count := r.stargazers_count + 1 } else r) = maskCounter r
  split <;> rfl

theorem map_mask_decStar (p : Nat) (l : List PackageRow) :
    (l.map (Database.decStarRow p)).map maskCounter = l.map maskCounter := by
  rw [List.map_map]
  apply List.map_congr_left
  intro r _
  show maskCounter (if (r.pointer == p) = true then
    { r with stargazers_count := r.stargazers_count - 1 } else r) = maskCounter r
  split <;> rfl

theorem map_orig_incStar (p : Nat) (l : List PackageRow) :
    (l.map (Database.incStarRow p)).map PackageRow.original_stargazers =
      l.map PackageRow.original_stargazers := by
  rw [List.map_map]
  apply List.map_congr_left
  intro r _
  show (if (r.pointer == p) = true then
    { r with stargazers_count := r.stargazers_count + 1 }
    else r).original_stargazers = r.original_stargazers
  split <;> rfl

theorem map_orig_decStar (p : Nat) (l : List PackageRow) :
    (l.map (Database.decStarRow p)).map PackageRow.original_stargazers =
      l.map PackageRow.original_stargazers := by
  rw [List.map_map]
  apply List.map_congr_left
  intro r _
  show (if (r.pointer == p) = true then
    { r with stargazers_count := r.stargazers_count - 1 }
    else r).original_stargazers = r.original_stargazers
  split <;> rfl

theorem incStar_frame (db : Db) (name : String) :
    (Database.updatePackageIncrementStarByName db name).2.packages.map maskCounter =
      db.packages.map maskCounter ∧
    (Database.updatePackageIncrementStarByName db name).2.names = db.names ∧
    (Database.updatePackageIncrementStarByName db name).2.versions = db.versions ∧
    (Database.updatePackageIncrementStarByName db name).2.stars = db.stars := by
  cases hf : Database.findPointerByName db name with
  | none =>
    have hop : Database.updatePackageIncrementStarByName db name =
        (DbResult.err "Not Found" ("Unable to find the package " ++ name), db) := by
      unfold Database.updatePackageIncrementStarByName
      rw [hf]
    rw [hop]
    exact ⟨rfl, rfl, rfl, rfl⟩
  | some p =>
    cases hr : Database.findPackageByPointer db p with
    | none =>
      have hop : Database.updatePackageIncrementStarByName db name =
          (DbResult.err "Not Found" ("Unable to find the package " ++ name), db) := by
        unfold Database.updatePackageIncrementStarByName
        rw [hf]
        simp only [hr]
      rw [hop]
      exact ⟨rfl, rfl, rfl, rfl⟩
    | some row =>
      rw [incStar_eq hf hr]
      exact ⟨map_mask_incStar p db.packages, rfl, rfl, rfl⟩

theorem decStar_frame (db : Db) (name : String) :
    (Database.updatePackageDecrementStarByName db name).2.packages.map maskCounter =
      db.packages.map maskCounter ∧
    (Database.updatePackageDecrementStarByName db name).2.names = db.names ∧
    (Database.updatePackageDecrementStarByName db name).2.versions = db.versions ∧
    (Database.updatePackageDecrementStarByName db name).2.stars = db.stars := by
  cases hf : Database.findPointerByName db name with
  | none =>
    have hop : Database.updatePackageDecrementStarByName db name =
        (DbResult.err "Not Found" ("Unable to find the package " ++ name), db) := by
      unfold Database.updatePackageDecrementStarByName
      rw [hf]
    rw [hop]
    exact ⟨rfl, rfl, rfl, rfl⟩
  | some p =>
    cases hr : Database.findPackageByPointer db p with
    | none =>
      have hop : Database.updatePackageDecrementStarByName db name =
          (DbResult.err "Not Found" ("Unable to find the package " ++ name), db) := by
        unfold Database.updatePackageDecrementStarByName
        rw [hf]
        simp only [hr]
      rw [hop]
      exact ⟨rfl, rfl, rfl, rfl⟩
    | some row =>
      rw [decStar_eq hf hr]
      exact ⟨map_mask_decStar p db.packages, rfl, rfl, rfl⟩

theorem updateStars_orig_frame (db : Db) (u : UserRow) (name : String) :
    (Database.updateStars db u name).2.packages.map PackageRow.original_stargazers =
      db.packages.map PackageRow.original_stargazers := by
  cases hf : Database.findPointerByName db name with
  | none =>
    have hop : Database.updateStars db u name =
        (DbResult.err "Not Found" ("Unable to find the package " ++ name), db) := by
      unfold Database.updateStars
      rw [hf]
    rw [hop]
  | some p =>
    by_cases hs : Database.hasStar db p u.id = true
    · have hop : Database.updateStars db u name =
          (DbResult.ok ("Successfully Stared " ++ toString p ++ " with " ++
            toString u.id), db) := by
        unfold Database.updateStars
        rw [hf]
        simp only [hs, if_true]
      rw [hop]
    · have hs0 : Database.hasStar db p u.id = false := Bool.eq_false_iff.mpr hs
      rw [updateStars_eq_insert hf hs0]
      exact map_orig_incStar p db.packages

theorem updateDeleteStar_orig_frame (db : Db) (u : UserRow) (name : String) :
    (Database.updateDeleteStar db u name).2.packages.map
      PackageRow.original_stargazers =
      db.packages.map PackageRow.original_stargazers := by
  cases hf : Database.findPointerByName db name with
  | none =>
    have hop : Database.updateDeleteStar db u name =
        (DbResult.err "Not Found" ("Unable to find the package " ++ name), db) := by
      unfold Database.updateDeleteStar
      rw [hf]
    rw [hop]
  | some p =>
    by_cases hs : Database.hasStar db p u.id = true
    · rw [updateDeleteStar_eq hf hs]
      exact map_orig_decStar p db.packages
    · have hs0 : Database.hasStar db p u.id = false := Bool.eq_false_iff.mpr hs
      have hop : Database.updateDeleteStar db u name =
          (DbResult.err "Not Found" "The star was not found.", db) := by
        unfold Database.updateDeleteStar
        rw [hf]
        simp only [hs0, Bool.false_eq_true, if_false]
      rw [hop]

/-- Claim C8: the counter-path star operations modify only the
`stargazers_count` field — the packages masked at that field are
unchanged, and the names, versions and star tables are untouched — and
the `original_stargazers` offset is unchanged by every star and unstar
operation of either path. -/
theorem C8_star_ops_only_touch_counter (db : Db) (name : String) (u : UserRow) :
    ((Database.updatePackageIncrementStarByName db name).2.packages.map maskCounter =
      db.packages.map maskCounter ∧
     (Database.updatePackageIncrementStarByName db name).2.names = db.names ∧
     (Database.updatePackageIncrementStarByName db name).2.versions = db.versions ∧
     (Database.updatePackageIncrementStarByName db name).2.stars = db.stars) ∧
    ((Database.updatePackageDecrementStarByName db name).2.packages.map maskCounter =
      db.packages.map maskCounter ∧
     (Database.updatePackageDecrementStarByName db name).2.names = db.names ∧
     (Database.updatePackageDecrementStarByName db name).2.versions = db.versions ∧
     (Database.updatePackageDecrementStarByName db name).2.stars = db.stars) ∧
    (Database.updatePackageIncrementStarByName db name).2.packages.map
      PackageRow.original_stargazers = db.packages.map PackageRow.original_stargazers ∧
    (Database.updatePackageDecrementStarByName db name).2.packages.map
      PackageRow.original_stargazers = db.packages.map PackageRow.original_stargazers ∧
    (Database.updateStars db u name).2.packages.map PackageRow.original_stargazers =
      db.packages.map PackageRow.original_stargazers ∧
    (Database.updateDeleteStar db u name).2.packages.map
      PackageRow.original_stargazers = db.packages.map PackageRow.original_stargazers := by
  refine ⟨incStar_frame db name, decStar_frame db name, ?_, ?_,
    updateStars_orig_frame db u name, updateDeleteStar_orig_frame db u name⟩
  · have h := (incStar_frame db name).1
    have hmap : ∀ l1 l2 : List PackageRow, l1.map maskCounter = l2.map maskCounter →
        l1.map PackageRow.original_stargazers = l2.map PackageRow.original_stargazers := by
      intro l1 l2 hml
      have : ∀ l : List PackageRow, l.map PackageRow.original_stargazers =
          (l.map maskCounter).map PackageRow.original_stargazers := by
        intro l
        rw [List.map_map]
        apply List.map_congr_left
        intro r _
        rfl
      rw [this l1, this l2, hml]
    exact hmap _ _ h
  · have h := (decStar_frame db name).1
    have hmap : ∀ l1 l2 : List PackageRow, l1.map maskCounter = l2.map maskCounter →
        l1.map PackageRow.original_stargazers = l2.map PackageRow.original_stargazers := by
      intro l1 l2 hml
      have : ∀ l : List PackageRow, l.map PackageRow.original_stargazers =
          (l.map maskCounter).map PackageRow.original_stargazers := by
        intro l
        rw [List.map_map]
        apply List.map_congr_left
        intro r _
        rfl
      rw [this l1, this l2, hml]
    exact hmap _ _ h
